import Mathlib

/-!
Verification of the template-materialization logic of `create-express-starter`
(`src/index.ts`, `src/templates.ts`).  The CLI's `main` function is embedded as
a pure function over a small filesystem model: the chosen template directory is
a list of entries (files with content, plus directories), the destination
directory is an optional list of entries (`none` when the directory does not
exist yet), and each fallible I/O step is parameterized by a fault flag so that
the error-propagation structure of `main` (which steps are wrapped in which
`try`/`catch`) can be stated and proved.
-/

set_option autoImplicit false
set_option maxRecDepth 10000

namespace CES

/-- A path, relative to its root directory, as a list of name components. -/
abbrev Path := List String

/-- A filesystem entry: a regular file with text content, or a directory. -/
inductive Entry where
  | file : Path → String → Entry
  | dir : Path → Entry
deriving DecidableEq

/-- A directory tree: the list of its entries (files and subdirectories). -/
abbrev FS := List Entry

/-- The path of an entry. -/
def pathOfE : Entry → Path
  | .file p _ => p
  | .dir p => p

/-- Whether an entry is a regular file located exactly at `p`. -/
def isFileAt (e : Entry) (p : Path) : Bool :=
  match e with
  | .file q _ => q = p
  | .dir _ => false

/-- Modelled from the spec: the `readIfExists`/`exists` filesystem primitives of
`src/fs-utils.ts` (not included under `src/`); `findFile fs p` is the content of
the regular file at `p`, or `none` when no such file exists. -/
def findFile : FS → Path → Option String
  | [], _ => none
  | .file q c :: rest, p => if q = p then some c else findFile rest p
  | .dir _ :: rest, p => findFile rest p

/-- Modelled from the spec: the `removeIfExists` primitive of `src/fs-utils.ts`;
removing the regular file at `p` is a no-op when it is absent. -/
def removeFile (fs : FS) (p : Path) : FS :=
  fs.filter (fun e => !(isFileAt e p))

/-- Modelled from the spec: the `writeFile` primitive of `src/fs-utils.ts`;
writing creates the file at `p` or overwrites an existing one. -/
def writeF (fs : FS) (p : Path) (c : String) : FS :=
  Entry.file p c :: removeFile fs p

/-! ### The copy filter (src/index.ts, fs.copy options, lines 154-168) -/

/-- JS `String.prototype.endsWith`, modelled on the character lists (the core
`String.endsWith` is opaque to definitional reduction). -/
def strEndsWith (s suffix : String) : Bool :=
  List.isSuffixOf suffix.data s.data

/-- The per-basename predicate of the `fs.copy` filter in `main`: rejects the
`.gitignore` seed file `git-ignore.txt`, the `node_modules` and `dist`
directories and every basename ending in `lock.json`, `.lock` or `.yaml`. -/
def copyFilter (filename : String) : Bool :=
  if filename = "git-ignore.txt" then false
  else if filename = "node_modules" then false
  else if filename = "dist" then false
  else !(strEndsWith filename "lock.json" || strEndsWith filename ".lock"
         || strEndsWith filename ".yaml")

/-- `fs.copy` applies the filter to every directory on the way down and to the
entry itself, so an entry is copied exactly when every component of its
relative path passes `copyFilter`. -/
def allPass (p : Path) : Bool :=
  p.all copyFilter

/-- The bulk template copy of `main`: the filtered mirror of the template tree
(the destination is empty at this point, so no overwriting can occur). -/
def copyTree (t : FS) : FS :=
  t.filter (fun e => allPass (pathOfE e))

/-! ### Regex-substitution models

`main` patches a handful of copied files with `String.prototype.replace` on
fixed regexes.  None of those regexes carries the `g` flag (the `.env` one
does), so they rewrite the first match only.  The patterns are literal tokens
separated by `\s*`, which matches greedily and without backtracking here
because each following token starts with a non-whitespace character. -/

/-- JS `\s` on the ASCII range, as used by the dialect/provider regexes. -/
def isWS (c : Char) : Bool :=
  c = ' ' || c = '\t' || c = '\n' || c = '\r' || c = '\x0b' || c = '\x0c'

/-- Match a literal token at the head of the input, returning the rest. -/
def litMatch : List Char → List Char → Option (List Char)
  | [], s => some s
  | _ :: _, [] => none
  | a :: as, b :: bs => if a = b then litMatch as bs else none

/-- Match `pre` then `\s*` then `post` at the head of the input. -/
def tokenMatch (pre post : List Char) (s : List Char) : Option (List Char) :=
  match litMatch pre s with
  | some r => litMatch post (r.dropWhile isWS)
  | none => none

/-- The regex `/dialect:\s*"sqlite"/` of the drizzle-config rewrite. -/
def matchDialectSqlite (s : List Char) : Option (List Char) :=
  tokenMatch "dialect:".data "\"sqlite\"".data s

/-- The regex `/provider:\s*"pg"|provider:\s*"sqlite"/` of the auth rewrite
(the left alternative is tried first at each position, as in JS). -/
def matchProviderTok (s : List Char) : Option (List Char) :=
  match tokenMatch "provider:".data "\"pg\"".data s with
  | some r => some r
  | none => tokenMatch "provider:".data "\"sqlite\"".data s

/-- The regex `/\.\/auth-schema\.(sqlite|pg)/` of the schema-import rewrite. -/
def matchSchemaImport (s : List Char) : Option (List Char) :=
  match litMatch "./auth-schema.".data s with
  | some r =>
    match litMatch "sqlite".data r with
    | some r2 => some r2
    | none => litMatch "pg".data r
  | none => none

/-- Replace the first match of `m` (scanning left to right) by `repl`;
the identity when there is no match, like a non-`g` JS `replace`. -/
def replaceFirst (m : List Char → Option (List Char)) (repl : List Char) :
    List Char → List Char
  | [] => []
  | c :: cs =>
    match m (c :: cs) with
    | some rest => repl ++ rest
    | none => c :: replaceFirst m repl cs

/-- Whether `m` matches anywhere in the input. -/
def hasMatch (m : List Char → Option (List Char)) : List Char → Bool
  | [] => (m []).isSome
  | c :: cs => (m (c :: cs)).isSome || hasMatch m cs

/-- The drizzle-config dialect rewrite of `main` (lines 192-204):
`content.replace(/dialect:\s*"sqlite"/, 'dialect: "postgresql"')`. -/
def replaceDialect (s : String) : String :=
  ⟨replaceFirst matchDialectSqlite "dialect: \"postgresql\"".data s.data⟩

/-- The schema-import rewrite of `main` (lines 219-230):
`content.replace(/\.\/auth-schema\.(sqlite|pg)/, "./auth-schema")`. -/
def replaceSchemaImport (s : String) : String :=
  ⟨replaceFirst matchSchemaImport "./auth-schema".data s.data⟩

/-- The database kind chosen in the prompt: `"sqlite"` or `"neon"`. -/
inductive DBChoice where
  | sqlite
  | neon
deriving DecidableEq

/-- The auth-provider rewrite of `main` (lines 232-250): both branches replace
the first provider token, with `"pg"` for neon and `"sqlite"` otherwise. -/
def replaceProvider (db : DBChoice) (s : String) : String :=
  if db = DBChoice.neon then
    ⟨replaceFirst matchProviderTok "provider: \"pg\"".data s.data⟩
  else
    ⟨replaceFirst matchProviderTok "provider: \"sqlite\"".data s.data⟩

/-! ### The `.env` DATABASE_URL stripping (src/index.ts, line 301)

`envContent.replace(/^DATABASE_URL=.*$/gim, "")` blanks (but does not delete)
every line that starts, case-insensitively, with `DATABASE_URL=`.  The model
splits on `'\n'`; it is faithful for content free of `'\r'` (and of the exotic
Unicode line terminators), which the relevant theorem assumes. -/

/-- Prepend one character to a line decomposition: a newline starts a fresh
first line, any other character extends the first line. -/
def consLine (c : Char) : List (List Char) → List (List Char)
  | [] => [[]]
  | l :: ls => if c = '\n' then [] :: l :: ls else (c :: l) :: ls

/-- Split a character list into its `'\n'`-separated lines. -/
def splitLines : List Char → List (List Char)
  | [] => [[]]
  | c :: cs => consLine c (splitLines cs)

/-- Rejoin lines with `'\n'`; inverse of `splitLines` on newline-free lines. -/
def joinLines : List (List Char) → List Char
  | [] => []
  | [l] => l
  | l :: ls => l ++ '\n' :: joinLines ls

/-- Case-insensitive "the pattern is a prefix of the input" test, the ASCII
case folding of the regex `i` flag. -/
def matchesCi : List Char → List Char → Bool
  | [], _ => true
  | _ :: _, [] => false
  | a :: as, b :: bs => a.toLower = b.toLower && matchesCi as bs

/-- Whether a line matches `^DATABASE_URL=` case-insensitively. -/
def dbUrlLine (l : List Char) : Bool :=
  matchesCi "DATABASE_URL=".data l

/-- The `.env` stripping for the neon choice: every `DATABASE_URL=` line is
replaced by an empty line. -/
def envStrip (s : String) : String :=
  ⟨joinLines ((splitLines s.data).map (fun l => if dbUrlLine l then [] else l))⟩

/-! ### Template-payload constants (transcribed from the repository) -/

/-- `neonDrizzleIndex` from `src/templates.ts`. -/
def neonDrizzleIndex : String :=
  "import \x7b env \x7d from \"@/utils/env.js\";\n" ++
  "import \x7b drizzle \x7d from \"drizzle-orm/neon-http\";\n" ++
  "import \x7b neon \x7d from \"@neondatabase/serverless\";\n\n" ++
  "const sql = neon(env.DATABASE_URL!);\n" ++
  "export const db = drizzle(\x7b client: sql \x7d);\n"

/-- `sqliteDrizzleIndex` from `src/templates.ts`. -/
def sqliteDrizzleIndex : String :=
  "import \x7b env \x7d from \"@/utils/env.js\";\n" ++
  "import \x7b drizzle \x7d from \"drizzle-orm/better-sqlite3\";\n\n" ++
  "export const db = drizzle(\x7b connection: \x7b source: env.DATABASE_URL \x7d \x7d);\n"

/-- The content of the advanced template's `drizzle.config.ts`
(`src/templates/advance/drizzle.config.ts`). -/
def drizzleConfigSrc : String :=
  "import \x7b defineConfig \x7d from \"drizzle-kit\";\n" ++
  "import \x7b env \x7d from \"./src/utils/env\";\n\n" ++
  "export default defineConfig(\x7b\n" ++
  "  out: \"./src/drizzle/drizzle-out\",\n" ++
  "  schema: \"./src/drizzle/schema.ts\",\n" ++
  "  dialect: \"sqlite\",\n" ++
  "  dbCredentials: \x7b\n" ++
  "    url: env.DATABASE_URL,\n" ++
  "  \x7d,\n" ++
  "\x7d);\n"

/-- `drizzleConfigSrc` after the neon dialect rewrite. -/
def drizzleConfigPg : String :=
  "import \x7b defineConfig \x7d from \"drizzle-kit\";\n" ++
  "import \x7b env \x7d from \"./src/utils/env\";\n\n" ++
  "export default defineConfig(\x7b\n" ++
  "  out: \"./src/drizzle/drizzle-out\",\n" ++
  "  schema: \"./src/drizzle/schema.ts\",\n" ++
  "  dialect: \"postgresql\",\n" ++
  "  dbCredentials: \x7b\n" ++
  "    url: env.DATABASE_URL,\n" ++
  "  \x7d,\n" ++
  "\x7d);\n"

/-! ### Destination paths touched by the advanced post-processing -/

/-- Canonical auth-schema destination `src/drizzle/auth-schema.ts`. -/
def authTsP : Path := ["src", "drizzle", "auth-schema.ts"]

/-- The Postgres variant `src/drizzle/auth-schema.pg.ts`. -/
def pgVarP : Path := ["src", "drizzle", "auth-schema.pg.ts"]

/-- The SQLite variant `src/drizzle/auth-schema.sqlite.ts`. -/
def sqVarP : Path := ["src", "drizzle", "auth-schema.sqlite.ts"]

/-- The dialect configuration file `drizzle.config.ts` at the project root. -/
def configP : Path := ["drizzle.config.ts"]

/-- The DB-connector bootstrap file `src/drizzle/index.ts`. -/
def idxP : Path := ["src", "drizzle", "index.ts"]

/-- The schema barrel file `src/drizzle/schema.ts`. -/
def schemaP : Path := ["src", "drizzle", "schema.ts"]

/-- The auth-provider bootstrap file `src/utils/auth.ts`. -/
def authUtilP : Path := ["src", "utils", "auth.ts"]

/-- The template-side auth-schema variant selected by the database choice
(line 174: `dbChoice === "neon" ? "auth-schema.pg.ts" : "auth-schema.sqlite.ts"`). -/
def selVarP (db : DBChoice) : Path :=
  if db = DBChoice.neon then pgVarP else sqVarP

/-! ### The run configuration and the fault model -/

/-- The template tier chosen in the prompt. -/
inductive TType where
  | basic
  | advance
deriving DecidableEq

/-- The answers `main` collects from its prompts before materializing. -/
structure Config where
  templateType : TType
  dbChoice : DBChoice
  shouldGitInit : Bool
  shouldInstall : Bool
deriving DecidableEq

/-- One Boolean per fallible I/O step of `main`: `true` means the underlying
filesystem (or subprocess) call throws when that step actually attempts it.
`gitInitFails` and `installFails` are listed for completeness: `main` catches
both at the call site and only logs them, so they cannot influence the
returned state, which the embedding makes definitional. -/
structure Faults where
  copyFails : Bool
  swapFails : Bool
  dialectFails : Bool
  indexFails : Bool
  schemaFails : Bool
  authFails : Bool
  rmPgFails : Bool
  rmSqliteFails : Bool
  gitignoreFails : Bool
  envFails : Bool
  gitInitFails : Bool
  installFails : Bool
deriving DecidableEq

/-- The fault-free run. -/
def noFaults : Faults :=
  ⟨false, false, false, false, false, false, false, false, false, false,
   false, false⟩

/-- The observable outcome of a run of `main`: the process exit code and the
final destination directory (`none` when it was never created). -/
structure RunResult where
  exitCode : Nat
  dest : Option FS
deriving DecidableEq

/-- The final destination tree of a run (empty when never created). -/
def destFS (r : RunResult) : FS :=
  r.dest.getD []

/-- Lookup of a destination file after a run. -/
def destLookup (r : RunResult) (p : Path) : Option String :=
  findFile (destFS r) p

/-! ### The advanced post-processing block (src/index.ts, lines 170-278)

The block is one `try` whose `catch` only logs, so a throw inside it skips the
rest of the block but not the rest of `main`; each step is an `Except FS FS`
computation whose error value carries the state at the point of failure. -/

/-- Copy the selected auth-schema variant from the template onto the canonical
`src/drizzle/auth-schema.ts` (`copyIfExists`, line 189): a no-op when the
template does not contain the variant. -/
def swapStep (t : FS) (db : DBChoice) (f : Faults) (fs : FS) : Except FS FS :=
  match findFile t (selVarP db) with
  | some c => if f.swapFails then .error fs else .ok (writeF fs authTsP c)
  | none => .ok fs

/-- Rewrite the dialect token in the copied `drizzle.config.ts` for neon
(lines 192-204); skipped when the file is absent, and skipped entirely for
sqlite. -/
def dialectStep (db : DBChoice) (f : Faults) (fs : FS) : Except FS FS :=
  if db = DBChoice.neon then
    match findFile fs configP with
    | some content =>
      if f.dialectFails then .error fs
      else .ok (writeF fs configP (replaceDialect content))
    | none => .ok fs
  else .ok fs

/-- Write the deterministic `src/drizzle/index.ts` (lines 206-217): an
unconditional `writeFile`, not guarded by an existence check. -/
def indexStep (db : DBChoice) (f : Faults) (fs : FS) : Except FS FS :=
  if f.indexFails then .error fs
  else .ok (writeF fs idxP
    (if db = DBChoice.neon then neonDrizzleIndex else sqliteDrizzleIndex))

/-- Rewrite the auth-schema import in `src/drizzle/schema.ts` (lines 219-230);
skipped when the file is absent. -/
def schemaStep (f : Faults) (fs : FS) : Except FS FS :=
  match findFile fs schemaP with
  | some content =>
    if f.schemaFails then .error fs
    else .ok (writeF fs schemaP (replaceSchemaImport content))
  | none => .ok fs

/-- Rewrite the provider token in `src/utils/auth.ts` (lines 232-250);
skipped when the file is absent. -/
def authStep (db : DBChoice) (f : Faults) (fs : FS) : Except FS FS :=
  match findFile fs authUtilP with
  | some content =>
    if f.authFails then .error fs
    else .ok (writeF fs authUtilP (replaceProvider db content))
  | none => .ok fs

/-- Remove both auth-schema variant files (lines 252-274); each removal is in
its own `try` with an ignoring `catch`, so its failure is swallowed. -/
def rmStep (f : Faults) (fs : FS) : Except FS FS :=
  let fs1 := if f.rmPgFails then fs else removeFile fs pgVarP
  let fs2 := if f.rmSqliteFails then fs1 else removeFile fs1 sqVarP
  .ok fs2

/-- The whole advanced post-processing `try` block: a throw at any step skips
the remaining steps, and the surrounding `catch` (line 275) logs and keeps the
state reached so far. -/
def advancedPhase (t : FS) (db : DBChoice) (f : Faults) (fs : FS) : FS :=
  match swapStep t db f fs >>= dialectStep db f >>= indexStep db f >>=
      schemaStep f >>= authStep db f >>= rmStep f with
  | .ok r => r
  | .error r => r

/-- Materialize `.gitignore` from the template's `git-ignore.txt` (lines
280-285); this runs inside `main`'s outer fatal `try`, so a write failure here
aborts the run. -/
def gitignorePhase (t : FS) (f : Faults) (fs : FS) : Except FS FS :=
  match findFile t ["git-ignore.txt"] with
  | some c =>
    if f.gitignoreFails then .error fs
    else .ok (writeF fs [".gitignore"] c)
  | none => .ok fs

/-- The first present candidate content, in order. -/
def firstSome : List (Option String) → Option String
  | [] => none
  | none :: rest => firstSome rest
  | some c :: _ => some c

/-- The `.env` example candidates of lines 289-294, in probe order: the
template's `env.example.txt` and `env.example`, then the same names inside the
freshly copied destination. -/
def envCands (t : FS) (fs : FS) : List (Option String) :=
  [findFile t ["env.example.txt"], findFile t ["env.example"],
   findFile fs ["env.example.txt"], findFile fs ["env.example"]]

/-- The content transformation applied to the chosen env example (line 300):
DATABASE_URL stripping exactly for the advanced/neon combination. -/
def envTransform (tt : TType) (db : DBChoice) (c : String) : String :=
  if tt = TType.advance ∧ db = DBChoice.neon then envStrip c else c

/-- The `.env` materialization loop (lines 295-310): each candidate is probed
inside a non-fatal `try`, the first readable one is transformed and written and
the loop breaks; a write failure just moves on to the next candidate. -/
def envPhase (t : FS) (tt : TType) (db : DBChoice) (f : Faults) (fs : FS) :
    FS :=
  if f.envFails then fs
  else
    match firstSome (envCands t fs) with
    | some c => writeF fs [".env"] (envTransform tt db c)
    | none => fs

/-- The run of `main` after the non-empty-destination guard has passed: the
destination directory exists and is empty.  The bulk copy failing hits the
outer `catch` (line 313) and exits 1 (no file modelled as written in that
case); the advanced block swallows its own errors; the `.gitignore` step is
fatal; the `.env` loop is not.  Git init (lines 320-329), dependency install
(lines 331-345) and the best-effort neondb provisioning (lines 347-359) catch
their own failures and only log, so they touch neither the destination tree
nor the exit code. -/
def runAfterGuard (t : FS) (cfg : Config) (f : Faults) : RunResult :=
  if f.copyFails then { exitCode := 1, dest := some [] }
  else
    let fs1 := copyTree t
    let fs2 := if cfg.templateType = TType.advance then
        advancedPhase t cfg.dbChoice f fs1
      else fs1
    match gitignorePhase t f fs2 with
    | .error fsE => { exitCode := 1, dest := some fsE }
    | .ok fs3 =>
      { exitCode := 0,
        dest := some (envPhase t cfg.templateType cfg.dbChoice f fs3) }

/-- The embedded `main` (src/index.ts, lines 100 onward), starting after the
prompts have produced `cfg`: if the destination directory exists and
`readdir` returns at least one entry, `main` logs and calls `process.exit(1)`
before any write (lines 100-108); otherwise the directory is created when
missing (line 109) and materialization proceeds. -/
def runMain (t : FS) (dest0 : Option FS) (cfg : Config) (f : Faults) :
    RunResult :=
  match dest0 with
  | some fs =>
    if fs.length > 0 then { exitCode := 1, dest := some fs }
    else runAfterGuard t cfg f
  | none => runAfterGuard t cfg f

/-! ### Pure (fault-free) forms of the phases, for reasoning -/

/-- `swapStep` without faults. -/
def swapPure (t : FS) (db : DBChoice) (fs : FS) : FS :=
  match findFile t (selVarP db) with
  | some c => writeF fs authTsP c
  | none => fs

/-- `dialectStep` without faults. -/
def dialectPure (db : DBChoice) (fs : FS) : FS :=
  if db = DBChoice.neon then
    match findFile fs configP with
    | some content => writeF fs configP (replaceDialect content)
    | none => fs
  else fs

/-- `indexStep` without faults. -/
def indexPure (db : DBChoice) (fs : FS) : FS :=
  writeF fs idxP
    (if db = DBChoice.neon then neonDrizzleIndex else sqliteDrizzleIndex)

/-- `schemaStep` without faults. -/
def schemaPure (fs : FS) : FS :=
  match findFile fs schemaP with
  | some content => writeF fs schemaP (replaceSchemaImport content)
  | none => fs

/-- `authStep` without faults. -/
def authPure (db : DBChoice) (fs : FS) : FS :=
  match findFile fs authUtilP with
  | some content => writeF fs authUtilP (replaceProvider db content)
  | none => fs

/-- `rmStep` without faults. -/
def rmPure (fs : FS) : FS :=
  removeFile (removeFile fs pgVarP) sqVarP

/-- The fault-free advanced block as a plain composition. -/
def advPure (t : FS) (db : DBChoice) (fs : FS) : FS :=
  rmPure (authPure db (schemaPure (indexPure db (dialectPure db (swapPure t db fs)))))

/-- `gitignorePhase` without faults. -/
def gitignorePure (t : FS) (fs : FS) : FS :=
  match findFile t ["git-ignore.txt"] with
  | some c => writeF fs [".gitignore"] c
  | none => fs

/-! ### Spec-side view for the basic-run refinement claim -/

/-- Modelled from the spec: the expected destination view of a basic run per
P7 — the filtered mirror of the template, except that `.gitignore` is seeded
from `git-ignore.txt` and `.env` from the first readable env example. -/
def basicMirrorView (t : FS) (p : Path) : Option String :=
  if p = [".env"] then
    match (match findFile t ["env.example.txt"] with
           | some c => some c
           | none => findFile t ["env.example"]) with
    | some c => some c
    | none => findFile t [".env"]
  else if p = [".gitignore"] then
    match findFile t ["git-ignore.txt"] with
    | some g => some g
    | none => findFile t [".gitignore"]
  else if allPass p then findFile t p else none

/-! ### Concrete run configurations and fixtures for witnesses and
counterexamples -/

/-- Advanced template, neon database, no git init, no install. -/
def cfgAdvNeon : Config := ⟨TType.advance, DBChoice.neon, false, false⟩

/-- Advanced template, sqlite database, no git init, no install. -/
def cfgAdvSqlite : Config := ⟨TType.advance, DBChoice.sqlite, false, false⟩

/-- Basic template, no git init, no install. -/
def cfgBasic : Config := ⟨TType.basic, DBChoice.sqlite, false, false⟩

/-- A small but representative advanced template tree for witnesses. -/
def wT : FS := [
  Entry.file ["git-ignore.txt"] "node_modules\n",
  Entry.file ["env.example.txt"] "PORT=3000\nDATABASE_URL=file:local.db\nX=1",
  Entry.file ["drizzle.config.ts"] drizzleConfigSrc,
  Entry.file ["pnpm-lock.yaml"] "lock",
  Entry.dir ["node_modules"],
  Entry.file ["node_modules", "pkg", "a.js"] "m",
  Entry.file sqVarP "SQ",
  Entry.file pgVarP "PG",
  Entry.file ["a.txt"] "A"]

/-- Decidable form of "the variant and canonical auth-schema basenames occur
only at their standard `src/drizzle` locations in the template". -/
def variantNamesOk (t : FS) : Bool :=
  t.all (fun e => match e with
    | Entry.file p _ =>
      decide ((p.getLast? = some "auth-schema.sqlite.ts" → p = sqVarP) ∧
        (p.getLast? = some "auth-schema.pg.ts" → p = pgVarP) ∧
        (p.getLast? = some "auth-schema.ts" → p = authTsP))
    | Entry.dir _ => true)

/-- The fault pattern of the C5 counterexample: only the variant swap throws. -/
def fSwap : Faults :=
  { noFaults with swapFails := true }

/-- A fault pattern that can fail only advanced post-copy steps: the bulk
copy, the `.gitignore` write, the `.env` writes and the subprocesses all
succeed. -/
def fAdvOnly (sw dl ix sc au rp rs : Bool) : Faults :=
  ⟨false, sw, dl, ix, sc, au, rp, rs, false, false, false, false⟩

/-- The result of the deletion step under an arbitrary fault pattern: each of
the two removals is skipped exactly when its own write throws (each sits in
its own ignoring `try`), so `rmStep` never propagates an error. -/
def rmPureF (f : Faults) (fs : FS) : FS :=
  let fs1 := if f.rmPgFails then fs else removeFile fs pgVarP
  if f.rmSqliteFails then fs1 else removeFile fs1 sqVarP

/-- The fault pattern of the C9 counterexample: only the `.gitignore` write
throws. -/
def fGitignore : Faults :=
  { noFaults with gitignoreFails := true }

/-- Template for the C5 counterexample: a sqlite variant to make the swap
attempt, plus `.gitignore` and `.env` seeds and a connector file. -/
def t5 : FS := [
  Entry.file sqVarP "S",
  Entry.file ["git-ignore.txt"] "GI",
  Entry.file ["env.example.txt"] "E",
  Entry.file idxP "TI"]

/-- Template for the C9 counterexample: just a `.gitignore` seed. -/
def t9 : FS := [Entry.file ["git-ignore.txt"] "GI"]

/-! ### Lookup and membership lemmas for the filesystem model -/

theorem findFile_writeF_self (fs : FS) (p : Path) (c : String) :
    findFile (writeF fs p c) p = some c := by
  simp [writeF, findFile]

theorem findFile_removeFile_ne (fs : FS) {p q : Path} (h : q ≠ p) :
    findFile (removeFile fs p) q = findFile fs q := by
  induction fs with
  | nil => simp [removeFile, findFile]
  | cons e rest ih =>
    cases e with
    | file q' c' =>
      by_cases hq : q' = p
      · subst hq
        simp only [removeFile, List.filter_cons, isFileAt, decide_True,
          Bool.not_true, if_false, findFile, Ne.symm h]
        simpa [removeFile] using ih
      · by_cases hq2 : q' = q
        · subst hq2
          simp only [removeFile, List.filter_cons, isFileAt, hq,
            decide_eq_true_eq]
          simp [hq, findFile]
        · simp only [removeFile, List.filter_cons, isFileAt]
          simp only [decide_eq_true_eq, hq, Bool.not_false, if_true]
          simp only [findFile, hq2, if_false]
          simpa [removeFile] using ih
    | dir d =>
      simp only [removeFile, List.filter_cons, isFileAt, Bool.not_false,
        if_true, findFile]
      simpa [removeFile] using ih

theorem findFile_removeFile_self (fs : FS) (p : Path) :
    findFile (removeFile fs p) p = none := by
  induction fs with
  | nil => simp [removeFile, findFile]
  | cons e rest ih =>
    cases e with
    | file q' c' =>
      by_cases hq : q' = p
      · subst hq
        simpa [removeFile, List.filter_cons, isFileAt] using ih
      · simp only [removeFile, List.filter_cons, isFileAt,
          decide_eq_true_eq, hq, Bool.not_false, if_true, findFile]
        simpa [removeFile, hq] using ih
    | dir d =>
      simp only [removeFile, List.filter_cons, isFileAt, Bool.not_false,
        if_true, findFile]
      simpa [removeFile] using ih

theorem findFile_writeF_ne (fs : FS) {p q : Path} (c : String) (h : q ≠ p) :
    findFile (writeF fs p c) q = findFile fs q := by
  simp [writeF, findFile, Ne.symm h, findFile_removeFile_ne fs h]

theorem findFile_copyTree (t : FS) (q : Path) :
    findFile (copyTree t) q = if allPass q then findFile t q else none := by
  induction t with
  | nil => simp [copyTree, findFile]
  | cons e rest ih =>
    cases e with
    | file p c =>
      by_cases hq : p = q
      · subst hq
        by_cases hp : allPass p = true
        · simp [copyTree, List.filter_cons, pathOfE, hp, findFile]
        · simp only [Bool.not_eq_true] at hp
          simp only [copyTree, List.filter_cons, pathOfE, hp, if_false]
          simpa [copyTree, hp] using ih
      · by_cases hp : allPass p = true
        · simp only [copyTree, List.filter_cons, pathOfE, hp, if_true,
            findFile, hq, if_false]
          simpa [copyTree, hq] using ih
        · simp only [Bool.not_eq_true] at hp
          simp only [copyTree, List.filter_cons, pathOfE, hp, if_false,
            findFile, hq]
          simpa [copyTree, hq] using ih
    | dir d =>
      by_cases hp : allPass d = true
      · simp only [copyTree, List.filter_cons, pathOfE, hp, if_true,
          findFile]
        simpa [copyTree] using ih
      · simp only [Bool.not_eq_true] at hp
        simp only [copyTree, List.filter_cons, pathOfE, hp, if_false]
        simpa [copyTree] using ih

theorem mem_of_mem_removeFile {e : Entry} {fs : FS} {p : Path}
    (h : e ∈ removeFile fs p) : e ∈ fs :=
  (List.mem_filter.mp h).1

theorem mem_writeF_cases {e : Entry} {fs : FS} {p : Path} {c : String}
    (h : e ∈ writeF fs p c) : e = Entry.file p c ∨ e ∈ fs := by
  rcases List.mem_cons.mp h with h1 | h1
  · exact Or.inl h1
  · exact Or.inr (mem_of_mem_removeFile h1)

theorem mem_copyTree {e : Entry} {t : FS} (h : e ∈ copyTree t) :
    e ∈ t ∧ allPass (pathOfE e) = true := by
  have := List.mem_filter.mp h
  exact this

theorem findFile_isSome_of_mem {p : Path} {c : String} {fs : FS}
    (h : Entry.file p c ∈ fs) : (findFile fs p).isSome := by
  induction fs with
  | nil => simp at h
  | cons e rest ih =>
    cases e with
    | file q c' =>
      by_cases hq : q = p
      · simp [findFile, hq]
      · rcases List.mem_cons.mp h with h1 | h1
        · cases h1; simp at hq
        · simp [findFile, hq, ih h1]
    | dir d =>
      rcases List.mem_cons.mp h with h1 | h1
      · cases h1
      · simp [findFile, ih h1]

/-! ### Fault-free reductions of the phases -/

theorem ok_bind (a : FS) (g : FS → Except FS FS) :
    (Except.ok a >>= g) = g a := rfl

theorem error_bind (a : FS) (g : FS → Except FS FS) :
    (Except.error a >>= g : Except FS FS) = Except.error a := rfl

theorem swapStep_nf (t : FS) (db : DBChoice) (fs : FS) :
    swapStep t db noFaults fs = .ok (swapPure t db fs) := by
  unfold swapStep swapPure
  cases findFile t (selVarP db) <;> simp [noFaults]

theorem dialectStep_nf (db : DBChoice) (fs : FS) :
    dialectStep db noFaults fs = .ok (dialectPure db fs) := by
  unfold dialectStep dialectPure
  by_cases h : db = DBChoice.neon
  · simp only [h, if_true]
    cases findFile fs configP <;> simp [noFaults]
  · simp [h]

theorem indexStep_nf (db : DBChoice) (fs : FS) :
    indexStep db noFaults fs = .ok (indexPure db fs) := by
  simp [indexStep, indexPure, noFaults]

theorem schemaStep_nf (fs : FS) :
    schemaStep noFaults fs = .ok (schemaPure fs) := by
  unfold schemaStep schemaPure
  cases findFile fs schemaP <;> simp [noFaults]

theorem authStep_nf (db : DBChoice) (fs : FS) :
    authStep db noFaults fs = .ok (authPure db fs) := by
  unfold authStep authPure
  cases findFile fs authUtilP <;> simp [noFaults]

theorem rmStep_nf (fs : FS) : rmStep noFaults fs = .ok (rmPure fs) := by
  simp [rmStep, rmPure, noFaults]

theorem advancedPhase_nf (t : FS) (db : DBChoice) (fs : FS) :
    advancedPhase t db noFaults fs = advPure t db fs := by
  simp [advancedPhase, swapStep_nf, ok_bind, dialectStep_nf, indexStep_nf,
    schemaStep_nf, authStep_nf, rmStep_nf, advPure]

theorem gitignorePhase_nf (t : FS) (fs : FS) :
    gitignorePhase t noFaults fs = .ok (gitignorePure t fs) := by
  unfold gitignorePhase gitignorePure
  cases findFile t ["git-ignore.txt"] <;> simp [noFaults]

/-- The fault-free advanced run, fully factored into pure phases. -/
theorem runMain_adv_nf (t : FS) {d0 : Option FS} {cfg : Config}
    (hd0 : d0 = none ∨ d0 = some []) (hadv : cfg.templateType = TType.advance) :
    runMain t d0 cfg noFaults =
      { exitCode := 0,
        dest := some (envPhase t cfg.templateType cfg.dbChoice noFaults
          (gitignorePure t (advPure t cfg.dbChoice (copyTree t)))) } := by
  have hrun : runAfterGuard t cfg noFaults =
      { exitCode := 0,
        dest := some (envPhase t cfg.templateType cfg.dbChoice noFaults
          (gitignorePure t (advPure t cfg.dbChoice (copyTree t)))) } := by
    simp [runAfterGuard, show noFaults.copyFails = false from rfl, hadv,
      advancedPhase_nf, gitignorePhase_nf]
  rcases hd0 with h | h <;> subst h <;> simp [runMain, hrun]

/-- The fault-free basic run, fully factored into pure phases. -/
theorem runMain_basic_nf (t : FS) {d0 : Option FS} {cfg : Config}
    (hd0 : d0 = none ∨ d0 = some []) (hb : cfg.templateType = TType.basic) :
    runMain t d0 cfg noFaults =
      { exitCode := 0,
        dest := some (envPhase t cfg.templateType cfg.dbChoice noFaults
          (gitignorePure t (copyTree t))) } := by
  have hrun : runAfterGuard t cfg noFaults =
      { exitCode := 0,
        dest := some (envPhase t cfg.templateType cfg.dbChoice noFaults
          (gitignorePure t (copyTree t))) } := by
    simp [runAfterGuard, show noFaults.copyFails = false from rfl, hb,
      gitignorePhase_nf]
  rcases hd0 with h | h <;> subst h <;> simp [runMain, hrun]

/-! ### Per-path views of the pure phases -/

theorem swapPure_ne (t : FS) (db : DBChoice) (fs : FS) {q : Path}
    (h : q ≠ authTsP) : findFile (swapPure t db fs) q = findFile fs q := by
  unfold swapPure
  cases findFile t (selVarP db) <;> simp [findFile_writeF_ne _ _ h]

theorem dialectPure_ne (db : DBChoice) (fs : FS) {q : Path}
    (h : q ≠ configP) : findFile (dialectPure db fs) q = findFile fs q := by
  unfold dialectPure
  by_cases hdb : db = DBChoice.neon
  · simp only [hdb, if_true]
    cases findFile fs configP <;> simp [findFile_writeF_ne _ _ h]
  · simp [hdb]

theorem indexPure_ne (db : DBChoice) (fs : FS) {q : Path}
    (h : q ≠ idxP) : findFile (indexPure db fs) q = findFile fs q := by
  simp [indexPure, findFile_writeF_ne _ _ h]

theorem schemaPure_ne (fs : FS) {q : Path}
    (h : q ≠ schemaP) : findFile (schemaPure fs) q = findFile fs q := by
  unfold schemaPure
  cases findFile fs schemaP <;> simp [findFile_writeF_ne _ _ h]

theorem authPure_ne (db : DBChoice) (fs : FS) {q : Path}
    (h : q ≠ authUtilP) : findFile (authPure db fs) q = findFile fs q := by
  unfold authPure
  cases findFile fs authUtilP <;> simp [findFile_writeF_ne _ _ h]

theorem rmPure_ne (fs : FS) {q : Path} (h1 : q ≠ pgVarP) (h2 : q ≠ sqVarP) :
    findFile (rmPure fs) q = findFile fs q := by
  simp [rmPure, findFile_removeFile_ne _ h2, findFile_removeFile_ne _ h1]

theorem rmPure_pg (fs : FS) : findFile (rmPure fs) pgVarP = none := by
  have h : pgVarP ≠ sqVarP := by decide
  simp [rmPure, findFile_removeFile_ne _ h, findFile_removeFile_self]

theorem rmPure_sq (fs : FS) : findFile (rmPure fs) sqVarP = none := by
  simp [rmPure, findFile_removeFile_self]

theorem gitignorePure_ne (t : FS) (fs : FS) {q : Path}
    (h : q ≠ [".gitignore"]) :
    findFile (gitignorePure t fs) q = findFile fs q := by
  unfold gitignorePure
  cases findFile t ["git-ignore.txt"] <;> simp [findFile_writeF_ne _ _ h]

theorem envPhase_ne (t : FS) (tt : TType) (db : DBChoice) (f : Faults)
    (fs : FS) {q : Path} (h : q ≠ [".env"]) :
    findFile (envPhase t tt db f fs) q = findFile fs q := by
  unfold envPhase
  by_cases hf : f.envFails = true
  · simp [hf]
  · simp only [Bool.not_eq_true] at hf
    simp only [hf, if_false]
    cases firstSome (envCands t fs) <;> simp [findFile_writeF_ne _ _ h]

/-- The advanced block leaves every path other than its seven targets
untouched. -/
theorem advPure_ne (t : FS) (db : DBChoice) (fs : FS) {q : Path}
    (h1 : q ≠ authTsP) (h2 : q ≠ configP) (h3 : q ≠ idxP) (h4 : q ≠ schemaP)
    (h5 : q ≠ authUtilP) (h6 : q ≠ pgVarP) (h7 : q ≠ sqVarP) :
    findFile (advPure t db fs) q = findFile fs q := by
  simp [advPure, rmPure_ne _ h6 h7, authPure_ne _ _ h5, schemaPure_ne _ h4,
    indexPure_ne _ _ h3, dialectPure_ne _ _ h2, swapPure_ne _ _ _ h1]

/-- Canonical auth-schema content after the advanced block: the selected
template variant. -/
theorem advPure_authTs (t : FS) (db : DBChoice) (fs : FS) {c : String}
    (hsel : findFile t (selVarP db) = some c) :
    findFile (advPure t db fs) authTsP = some c := by
  have h6 : authTsP ≠ pgVarP := by decide
  have h7 : authTsP ≠ sqVarP := by decide
  have h2 : authTsP ≠ configP := by decide
  have h3 : authTsP ≠ idxP := by decide
  have h4 : authTsP ≠ schemaP := by decide
  have h5 : authTsP ≠ authUtilP := by decide
  simp [advPure, rmPure_ne _ h6 h7, authPure_ne _ _ h5, schemaPure_ne _ h4,
    indexPure_ne _ _ h3, dialectPure_ne _ _ h2, swapPure, hsel,
    findFile_writeF_self]

/-- Both variant files are gone after the advanced block. -/
theorem advPure_pg (t : FS) (db : DBChoice) (fs : FS) :
    findFile (advPure t db fs) pgVarP = none := by
  simp [advPure, rmPure_pg]

theorem advPure_sq (t : FS) (db : DBChoice) (fs : FS) :
    findFile (advPure t db fs) sqVarP = none := by
  simp [advPure, rmPure_sq]

/-- The dialect config after the advanced block: rewritten for neon, kept
as-is for sqlite. -/
theorem advPure_config (t : FS) (db : DBChoice) (fs : FS) :
    findFile (advPure t db fs) configP =
      if db = DBChoice.neon then (findFile fs configP).map replaceDialect
      else findFile fs configP := by
  have h1 : configP ≠ authTsP := by decide
  have h6 : configP ≠ pgVarP := by decide
  have h7 : configP ≠ sqVarP := by decide
  have h3 : configP ≠ idxP := by decide
  have h4 : configP ≠ schemaP := by decide
  have h5 : configP ≠ authUtilP := by decide
  have hs : findFile (swapPure t db fs) configP = findFile fs configP :=
    swapPure_ne _ _ _ h1
  simp only [advPure, rmPure_ne _ h6 h7, authPure_ne _ _ h5,
    schemaPure_ne _ h4, indexPure_ne _ _ h3]
  unfold dialectPure
  by_cases hdb : db = DBChoice.neon
  · subst hdb
    rw [if_pos rfl, if_pos rfl, ← hs]
    cases hc : findFile (swapPure t DBChoice.neon fs) configP <;>
      simp [hc, findFile_writeF_self]
  · rw [if_neg hdb, if_neg hdb, hs]

/-- The connector bootstrap after the advanced block: always the chosen
whole-file snippet. -/
theorem advPure_idx (t : FS) (db : DBChoice) (fs : FS) :
    findFile (advPure t db fs) idxP =
      some (if db = DBChoice.neon then neonDrizzleIndex
            else sqliteDrizzleIndex) := by
  have h6 : idxP ≠ pgVarP := by decide
  have h7 : idxP ≠ sqVarP := by decide
  have h4 : idxP ≠ schemaP := by decide
  have h5 : idxP ≠ authUtilP := by decide
  simp [advPure, rmPure_ne _ h6 h7, authPure_ne _ _ h5, schemaPure_ne _ h4,
    indexPure, findFile_writeF_self]

/-- The auth-provider file after the advanced block. -/
theorem advPure_authUtil (t : FS) (db : DBChoice) (fs : FS) :
    findFile (advPure t db fs) authUtilP =
      (findFile fs authUtilP).map (replaceProvider db) := by
  have h6 : authUtilP ≠ pgVarP := by decide
  have h7 : authUtilP ≠ sqVarP := by decide
  have h1 : authUtilP ≠ authTsP := by decide
  have h2 : authUtilP ≠ configP := by decide
  have h3 : authUtilP ≠ idxP := by decide
  have h4 : authUtilP ≠ schemaP := by decide
  have hs : findFile (indexPure db (dialectPure db (swapPure t db fs)))
      authUtilP = findFile fs authUtilP := by
    simp [indexPure_ne _ _ h3, dialectPure_ne _ _ h2, swapPure_ne _ _ _ h1]
  have hs2 : findFile (schemaPure (indexPure db (dialectPure db
      (swapPure t db fs)))) authUtilP = findFile fs authUtilP := by
    rw [schemaPure_ne _ h4, hs]
  simp only [advPure, rmPure_ne _ h6 h7]
  unfold authPure
  cases hc : findFile (schemaPure (indexPure db (dialectPure db
      (swapPure t db fs)))) authUtilP <;> rw [hc] at hs2
  · simp [hc, ← hs2]
  · simp [hc, findFile_writeF_self, ← hs2]

/-! ### Lines of the stripped `.env` content -/

theorem splitLines_cons (c : Char) (cs : List Char) :
    splitLines (c :: cs) = consLine c (splitLines cs) := rfl

theorem splitLines_ne_nil : ∀ s : List Char, splitLines s ≠ []
  | [] => by simp [splitLines]
  | c :: cs => by
    have ih := splitLines_ne_nil cs
    rw [splitLines_cons]
    cases h : splitLines cs with
    | nil => exact absurd h ih
    | cons l ls => by_cases hc : c = '\n' <;> simp [consLine, hc]

theorem mem_splitLines_no_newline :
    ∀ (s l : List Char), l ∈ splitLines s → '\n' ∉ l
  | [], l, h => by
    simp only [splitLines, List.mem_singleton] at h
    simp [h]
  | c :: cs, l, h => by
    have ih := fun l h => mem_splitLines_no_newline cs l h
    rw [splitLines_cons] at h
    cases hsc : splitLines cs with
    | nil => exact absurd hsc (splitLines_ne_nil cs)
    | cons l0 ls =>
      rw [hsc] at h
      by_cases hc : c = '\n'
      · subst hc
        have h2 : l ∈ ([] : List Char) :: l0 :: ls := by
          simpa [consLine] using h
        rcases List.mem_cons.mp h2 with h3 | h3
        · simp [h3]
        · exact ih l (by rw [hsc]; exact h3)
      · have h2 : l ∈ (c :: l0) :: ls := by
          simpa [consLine, hc] using h
        rcases List.mem_cons.mp h2 with h3 | h3
        · subst h3
          simp only [List.mem_cons, not_or]
          exact ⟨fun hh => hc hh.symm,
            ih l0 (by rw [hsc]; exact List.mem_cons_self l0 ls)⟩
        · exact ih l (by rw [hsc]; exact List.mem_cons.mpr (Or.inr h3))

theorem splitLines_single : ∀ {l : List Char}, '\n' ∉ l → splitLines l = [l]
  | [], _ => rfl
  | c :: cs, h => by
    have hc : ¬(c = '\n') := fun hh => h (by simp [hh])
    have hcs : '\n' ∉ cs := fun hh => h (List.mem_cons.mpr (Or.inr hh))
    rw [splitLines_cons, splitLines_single hcs]
    simp [consLine, hc]

theorem splitLines_append : ∀ {l : List Char} (t : List Char), '\n' ∉ l →
    splitLines (l ++ '\n' :: t) = l :: splitLines t
  | [], t, _ => by
    rw [List.nil_append, splitLines_cons]
    cases hsc : splitLines t with
    | nil => exact absurd hsc (splitLines_ne_nil t)
    | cons l0 ls => simp [consLine]
  | c :: cs, t, h => by
    have hc : ¬(c = '\n') := fun hh => h (by simp [hh])
    have hcs : '\n' ∉ cs := fun hh => h (List.mem_cons.mpr (Or.inr hh))
    rw [List.cons_append, splitLines_cons, splitLines_append t hcs]
    simp [consLine, hc]

theorem splitLines_joinLines : ∀ (M : List (List Char)), M ≠ [] →
    (∀ l ∈ M, '\n' ∉ l) → splitLines (joinLines M) = M
  | [], h, _ => absurd rfl h
  | [l], _, hM => by
    show splitLines l = [l]
    exact splitLines_single (hM l (by simp))
  | l :: l2 :: ls, _, hM => by
    have ih := splitLines_joinLines (l2 :: ls) (by simp)
      (fun x hx => hM x (List.mem_cons.mpr (Or.inr hx)))
    show splitLines (l ++ '\n' :: joinLines (l2 :: ls)) = _
    rw [splitLines_append _ (hM l (by simp)), ih]

theorem matchesCi_of_prefix : ∀ (p l : List Char), p <+: l →
    matchesCi p l = true
  | [], _, _ => rfl
  | a :: as, l, h => by
    obtain ⟨t, ht⟩ := h
    subst ht
    simp only [List.cons_append, matchesCi, Bool.and_eq_true,
      decide_eq_true_eq]
    refine ⟨by simp, matchesCi_of_prefix as (as ++ t) ⟨t, rfl⟩⟩

/-- The lines of the stripped env content, as the stripped lines of the
original. -/
theorem envStrip_lines (c : String) :
    splitLines (envStrip c).data =
      (splitLines c.data).map (fun l => if dbUrlLine l then [] else l) := by
  show splitLines (joinLines _) = _
  apply splitLines_joinLines
  · intro h
    exact splitLines_ne_nil c.data (List.map_eq_nil_iff.mp h)
  · intro x hx
    rcases List.mem_map.mp hx with ⟨y, hy, rfl⟩
    by_cases hd : dbUrlLine y = true
    · simp [hd]
    · simp only [Bool.not_eq_true] at hd
      simp only [hd, Bool.false_eq_true, if_false]
      exact mem_splitLines_no_newline c.data y hy

/-- No line of the stripped env content starts with `DATABASE_URL=`. -/
theorem envStrip_no_dbUrl (c : String) :
    ∀ l ∈ splitLines (envStrip c).data, ¬ ("DATABASE_URL=".data <+: l) := by
  intro l hl
  rw [envStrip_lines] at hl
  rcases List.mem_map.mp hl with ⟨y, hy, rfl⟩
  by_cases hd : dbUrlLine y = true
  · simp only [hd, if_true]
    intro hpre
    have := List.prefix_nil.mp hpre
    simp at this
  · simp only [Bool.not_eq_true] at hd
    simp only [hd, Bool.false_eq_true, if_false]
    intro hpre
    have := matchesCi_of_prefix _ _ hpre
    unfold dbUrlLine at hd
    rw [this] at hd
    simp at hd

/-! ### Membership in the destination tree of a fault-free run -/

theorem mem_swapPure {e : Entry} {t : FS} {db : DBChoice} {fs : FS}
    (h : e ∈ swapPure t db fs) :
    (∃ c, e = Entry.file authTsP c) ∨ e ∈ fs := by
  unfold swapPure at h
  cases hsc : findFile t (selVarP db) <;> rw [hsc] at h
  · exact Or.inr h
  · rcases mem_writeF_cases h with h1 | h1
    · exact Or.inl ⟨_, h1⟩
    · exact Or.inr h1

theorem mem_dialectPure {e : Entry} {db : DBChoice} {fs : FS}
    (h : e ∈ dialectPure db fs) :
    (∃ c, e = Entry.file configP c) ∨ e ∈ fs := by
  unfold dialectPure at h
  by_cases hdb : db = DBChoice.neon
  · rw [if_pos hdb] at h
    cases hsc : findFile fs configP <;> rw [hsc] at h
    · exact Or.inr h
    · rcases mem_writeF_cases h with h1 | h1
      · exact Or.inl ⟨_, h1⟩
      · exact Or.inr h1
  · rw [if_neg hdb] at h
    exact Or.inr h

theorem mem_indexPure {e : Entry} {db : DBChoice} {fs : FS}
    (h : e ∈ indexPure db fs) :
    (∃ c, e = Entry.file idxP c) ∨ e ∈ fs := by
  unfold indexPure at h
  rcases mem_writeF_cases h with h1 | h1
  · exact Or.inl ⟨_, h1⟩
  · exact Or.inr h1

theorem mem_schemaPure {e : Entry} {fs : FS} (h : e ∈ schemaPure fs) :
    (∃ c, e = Entry.file schemaP c) ∨ e ∈ fs := by
  unfold schemaPure at h
  cases hsc : findFile fs schemaP <;> rw [hsc] at h
  · exact Or.inr h
  · rcases mem_writeF_cases h with h1 | h1
    · exact Or.inl ⟨_, h1⟩
    · exact Or.inr h1

theorem mem_authPure {e : Entry} {db : DBChoice} {fs : FS}
    (h : e ∈ authPure db fs) :
    (∃ c, e = Entry.file authUtilP c) ∨ e ∈ fs := by
  unfold authPure at h
  cases hsc : findFile fs authUtilP <;> rw [hsc] at h
  · exact Or.inr h
  · rcases mem_writeF_cases h with h1 | h1
    · exact Or.inl ⟨_, h1⟩
    · exact Or.inr h1

theorem mem_rmPure {e : Entry} {fs : FS} (h : e ∈ rmPure fs) : e ∈ fs :=
  mem_of_mem_removeFile (mem_of_mem_removeFile h)

theorem mem_advPure {e : Entry} {t : FS} {db : DBChoice} {fs : FS}
    (h : e ∈ advPure t db fs) :
    (∃ c, e = Entry.file authTsP c) ∨ (∃ c, e = Entry.file configP c) ∨
    (∃ c, e = Entry.file idxP c) ∨ (∃ c, e = Entry.file schemaP c) ∨
    (∃ c, e = Entry.file authUtilP c) ∨ e ∈ fs := by
  unfold advPure at h
  have h1 := mem_rmPure h
  rcases mem_authPure h1 with h2 | h2
  · exact Or.inr (Or.inr (Or.inr (Or.inr (Or.inl h2))))
  rcases mem_schemaPure h2 with h3 | h3
  · exact Or.inr (Or.inr (Or.inr (Or.inl h3)))
  rcases mem_indexPure h3 with h4 | h4
  · exact Or.inr (Or.inr (Or.inl h4))
  rcases mem_dialectPure h4 with h5 | h5
  · exact Or.inr (Or.inl h5)
  rcases mem_swapPure h5 with h6 | h6
  · exact Or.inl h6
  · exact Or.inr (Or.inr (Or.inr (Or.inr (Or.inr h6))))

theorem mem_gitignorePure {e : Entry} {t fs : FS}
    (h : e ∈ gitignorePure t fs) :
    (∃ c, e = Entry.file [".gitignore"] c) ∨ e ∈ fs := by
  unfold gitignorePure at h
  cases hsc : findFile t ["git-ignore.txt"] <;> rw [hsc] at h
  · exact Or.inr h
  · rcases mem_writeF_cases h with h1 | h1
    · exact Or.inl ⟨_, h1⟩
    · exact Or.inr h1

theorem mem_envPhase {e : Entry} {t : FS} {tt : TType} {db : DBChoice}
    {f : Faults} {fs : FS} (h : e ∈ envPhase t tt db f fs) :
    (∃ c, e = Entry.file [".env"] c) ∨ e ∈ fs := by
  unfold envPhase at h
  by_cases hf : f.envFails = true
  · rw [if_pos hf] at h
    exact Or.inr h
  · simp only [Bool.not_eq_true] at hf
    rw [hf] at h
    simp only [Bool.false_eq_true, if_false] at h
    cases hsc : firstSome (envCands t fs) <;> rw [hsc] at h
    · exact Or.inr h
    · rcases mem_writeF_cases h with h1 | h1
      · exact Or.inl ⟨_, h1⟩
      · exact Or.inr h1

/-- Every entry of the destination of a fault-free run is a filtered copy of a
template entry or one of the seven files the post-processing can write. -/
theorem mem_destFS_nf {t : FS} {d0 : Option FS} {cfg : Config} {e : Entry}
    (hd0 : d0 = none ∨ d0 = some [])
    (he : e ∈ destFS (runMain t d0 cfg noFaults)) :
    (e ∈ t ∧ allPass (pathOfE e) = true) ∨
    (∃ c, e = Entry.file [".gitignore"] c) ∨
    (∃ c, e = Entry.file [".env"] c) ∨
    (∃ c, e = Entry.file authTsP c) ∨
    (∃ c, e = Entry.file configP c) ∨
    (∃ c, e = Entry.file idxP c) ∨
    (∃ c, e = Entry.file schemaP c) ∨
    (∃ c, e = Entry.file authUtilP c) := by
  by_cases hadv : cfg.templateType = TType.advance
  · rw [runMain_adv_nf t hd0 hadv] at he
    simp only [destFS, Option.getD_some] at he
    rcases mem_envPhase he with h1 | h1
    · exact Or.inr (Or.inr (Or.inl h1))
    rcases mem_gitignorePure h1 with h2 | h2
    · exact Or.inr (Or.inl h2)
    rcases mem_advPure h2 with h3 | h3 | h3 | h3 | h3 | h3
    · exact Or.inr (Or.inr (Or.inr (Or.inl h3)))
    · exact Or.inr (Or.inr (Or.inr (Or.inr (Or.inl h3))))
    · exact Or.inr (Or.inr (Or.inr (Or.inr (Or.inr (Or.inl h3)))))
    · exact Or.inr (Or.inr (Or.inr (Or.inr (Or.inr (Or.inr (Or.inl h3))))))
    · exact Or.inr (Or.inr (Or.inr (Or.inr (Or.inr (Or.inr (Or.inr h3))))))
    · exact Or.inl (mem_copyTree h3)
  · have hb : cfg.templateType = TType.basic := by
      cases h : cfg.templateType
      · rfl
      · exact absurd h hadv
    rw [runMain_basic_nf t hd0 hb] at he
    simp only [destFS, Option.getD_some] at he
    rcases mem_envPhase he with h1 | h1
    · exact Or.inr (Or.inr (Or.inl h1))
    rcases mem_gitignorePure h1 with h2 | h2
    · exact Or.inr (Or.inl h2)
    · exact Or.inl (mem_copyTree h2)

/-! ### Write-through and fault lemmas for the outer phases -/

/-- `.gitignore` content after a fault-free gitignore phase with a seed. -/
theorem gitignorePure_git {t : FS} {g : String} (fs : FS)
    (hg : findFile t ["git-ignore.txt"] = some g) :
    findFile (gitignorePure t fs) [".gitignore"] = some g := by
  simp [gitignorePure, hg, findFile_writeF_self]

/-- The env phase writes the transformed first candidate. -/
theorem envPhase_first {t : FS} {c : String} (tt : TType) (db : DBChoice)
    {f : Faults} (fs : FS) (he : findFile t ["env.example.txt"] = some c)
    (hf : f.envFails = false) :
    envPhase t tt db f fs = writeF fs [".env"] (envTransform tt db c) := by
  simp [envPhase, hf, envCands, he, firstSome]

/-- A throwing swap step makes the whole advanced block a no-op: the error
skips the rest of the block and the `catch` keeps the pre-block state. -/
theorem advancedPhase_swapFault {t : FS} {db : DBChoice} {f : Faults}
    (fs : FS) (hsw : f.swapFails = true) {c : String}
    (hsel : findFile t (selVarP db) = some c) :
    advancedPhase t db f fs = fs := by
  simp [advancedPhase, swapStep, hsel, hsw, error_bind]

/-- The gitignore phase with a seed and a failing write throws. -/
theorem gitignorePhase_fault {t : FS} {f : Faults} (fs : FS) {g : String}
    (hg : findFile t ["git-ignore.txt"] = some g)
    (hgi : f.gitignoreFails = true) :
    gitignorePhase t f fs = .error fs := by
  simp [gitignorePhase, hg, hgi]

/-- The gitignore phase with a seed and a working write. -/
theorem gitignorePhase_write {t : FS} {f : Faults} (fs : FS) {g : String}
    (hg : findFile t ["git-ignore.txt"] = some g)
    (hgi : f.gitignoreFails = false) :
    gitignorePhase t f fs = .ok (writeF fs [".gitignore"] g) := by
  simp [gitignorePhase, hg, hgi]

/-- Exit code of the post-guard run: 1 exactly for a bulk-copy failure or a
failing `.gitignore` write (the latter requires the seed file to exist). -/
theorem runAfterGuard_exit (t : FS) (cfg : Config) (f : Faults) :
    (runAfterGuard t cfg f).exitCode = 1 ↔
      f.copyFails = true ∨
      (f.gitignoreFails = true ∧
        (findFile t ["git-ignore.txt"]).isSome = true) := by
  unfold runAfterGuard
  by_cases hcp : f.copyFails = true
  · simp [hcp]
  · simp only [Bool.not_eq_true] at hcp
    simp only [hcp, Bool.false_eq_true, if_false]
    unfold gitignorePhase
    cases hg : findFile t ["git-ignore.txt"] with
    | none => simp [hcp]
    | some g =>
      by_cases hgi : f.gitignoreFails = true
      · simp [hgi, hcp]
      · simp only [Bool.not_eq_true] at hgi
        simp [hgi, hcp]

/-! ### Per-step reductions under arbitrary fault patterns

Each advanced step succeeds whenever its own fault flag is off, throws (with
the state so far as the error payload) when its flag is on and the step
actually attempts a write, and the deletion step never propagates at all. -/

theorem swapStep_ok {f : Faults} (t : FS) (db : DBChoice) (fs : FS)
    (hf : f.swapFails = false) :
    swapStep t db f fs = .ok (swapPure t db fs) := by
  unfold swapStep swapPure
  cases findFile t (selVarP db) <;> simp [hf]

theorem dialectStep_ok {f : Faults} (db : DBChoice) (fs : FS)
    (hf : f.dialectFails = false) :
    dialectStep db f fs = .ok (dialectPure db fs) := by
  unfold dialectStep dialectPure
  by_cases hdb : db = DBChoice.neon
  · simp only [hdb, if_true]
    cases findFile fs configP <;> simp [hf]
  · simp [hdb]

theorem indexStep_ok {f : Faults} (db : DBChoice) (fs : FS)
    (hf : f.indexFails = false) :
    indexStep db f fs = .ok (indexPure db fs) := by
  simp [indexStep, indexPure, hf]

theorem schemaStep_ok {f : Faults} (fs : FS) (hf : f.schemaFails = false) :
    schemaStep f fs = .ok (schemaPure fs) := by
  unfold schemaStep schemaPure
  cases findFile fs schemaP <;> simp [hf]

theorem authStep_ok {f : Faults} (db : DBChoice) (fs : FS)
    (hf : f.authFails = false) :
    authStep db f fs = .ok (authPure db fs) := by
  unfold authStep authPure
  cases findFile fs authUtilP <;> simp [hf]

theorem rmStep_run (f : Faults) (fs : FS) :
    rmStep f fs = .ok (rmPureF f fs) := rfl

theorem dialectStep_fault {f : Faults} {db : DBChoice} (fs : FS)
    (hdb : db = DBChoice.neon) (hf : f.dialectFails = true) {cc : String}
    (hcc : findFile fs configP = some cc) :
    dialectStep db f fs = .error fs := by
  simp [dialectStep, hdb, hcc, hf]

theorem indexStep_fault {f : Faults} (db : DBChoice) (fs : FS)
    (hf : f.indexFails = true) : indexStep db f fs = .error fs := by
  simp [indexStep, hf]

theorem schemaStep_fault {f : Faults} (fs : FS) (hf : f.schemaFails = true)
    {sc : String} (hsc : findFile fs schemaP = some sc) :
    schemaStep f fs = .error fs := by
  simp [schemaStep, hsc, hf]

theorem authStep_fault {f : Faults} (db : DBChoice) (fs : FS)
    (hf : f.authFails = true) {ac : String}
    (hac : findFile fs authUtilP = some ac) :
    authStep db f fs = .error fs := by
  simp [authStep, hac, hf]

/-! ### The advanced block under a single failing step: the steps before it
have run, the steps after it are skipped -/

theorem advancedPhase_dialectFault {f : Faults} (t : FS) {db : DBChoice}
    (fs : FS) (hsw : f.swapFails = false) (hdl : f.dialectFails = true)
    (hdb : db = DBChoice.neon) {cc : String}
    (hcc : findFile (swapPure t db fs) configP = some cc) :
    advancedPhase t db f fs = swapPure t db fs := by
  simp [advancedPhase, swapStep_ok t db fs hsw, ok_bind,
    dialectStep_fault _ hdb hdl hcc, error_bind]

theorem advancedPhase_indexFault {f : Faults} (t : FS) (db : DBChoice)
    (fs : FS) (hsw : f.swapFails = false) (hdl : f.dialectFails = false)
    (hix : f.indexFails = true) :
    advancedPhase t db f fs = dialectPure db (swapPure t db fs) := by
  simp [advancedPhase, swapStep_ok t db fs hsw, ok_bind,
    dialectStep_ok db _ hdl, indexStep_fault db _ hix, error_bind]

theorem advancedPhase_schemaFault {f : Faults} (t : FS) (db : DBChoice)
    (fs : FS) (hsw : f.swapFails = false) (hdl : f.dialectFails = false)
    (hix : f.indexFails = false) (hsc : f.schemaFails = true) {sc : String}
    (hs : findFile (indexPure db (dialectPure db (swapPure t db fs))) schemaP
      = some sc) :
    advancedPhase t db f fs = indexPure db (dialectPure db (swapPure t db fs))
    := by
  simp [advancedPhase, swapStep_ok t db fs hsw, ok_bind,
    dialectStep_ok db _ hdl, indexStep_ok db _ hix,
    schemaStep_fault _ hsc hs, error_bind]

theorem advancedPhase_authFault {f : Faults} (t : FS) (db : DBChoice)
    (fs : FS) (hsw : f.swapFails = false) (hdl : f.dialectFails = false)
    (hix : f.indexFails = false) (hsc : f.schemaFails = false)
    (hau : f.authFails = true) {ac : String}
    (ha : findFile (schemaPure (indexPure db (dialectPure db
      (swapPure t db fs)))) authUtilP = some ac) :
    advancedPhase t db f fs =
      schemaPure (indexPure db (dialectPure db (swapPure t db fs))) := by
  simp [advancedPhase, swapStep_ok t db fs hsw, ok_bind,
    dialectStep_ok db _ hdl, indexStep_ok db _ hix, schemaStep_ok _ hsc,
    authStep_fault db _ hau ha, error_bind]

theorem advancedPhase_rmOnly {f : Faults} (t : FS) (db : DBChoice) (fs : FS)
    (hsw : f.swapFails = false) (hdl : f.dialectFails = false)
    (hix : f.indexFails = false) (hsc : f.schemaFails = false)
    (hau : f.authFails = false) :
    advancedPhase t db f fs = rmPureF f (authPure db (schemaPure (indexPure db
      (dialectPure db (swapPure t db fs))))) := by
  simp [advancedPhase, swapStep_ok t db fs hsw, ok_bind,
    dialectStep_ok db _ hdl, indexStep_ok db _ hix, schemaStep_ok _ hsc,
    authStep_ok db _ hau, rmStep_run]

/-! ### More per-path views of the pure steps -/

theorem dialectPure_config (db : DBChoice) (fs : FS) :
    findFile (dialectPure db fs) configP =
      if db = DBChoice.neon then (findFile fs configP).map replaceDialect
      else findFile fs configP := by
  unfold dialectPure
  by_cases hdb : db = DBChoice.neon
  · subst hdb
    rw [if_pos rfl, if_pos rfl]
    cases hc : findFile fs configP <;> simp [hc, findFile_writeF_self]
  · rw [if_neg hdb, if_neg hdb]

theorem schemaPure_schema (fs : FS) :
    findFile (schemaPure fs) schemaP =
      (findFile fs schemaP).map replaceSchemaImport := by
  unfold schemaPure
  cases hc : findFile fs schemaP <;> simp [hc, findFile_writeF_self]

theorem swapPure_authTs (t : FS) (db : DBChoice) (fs : FS) {c : String}
    (hsel : findFile t (selVarP db) = some c) :
    findFile (swapPure t db fs) authTsP = some c := by
  simp [swapPure, hsel, findFile_writeF_self]

/-- A fault-parameterized advanced run whose bulk copy, `.gitignore` write and
`.env` write all succeed: the run exits 0 and ends with the advanced block's
state plus the `.gitignore` and `.env` files. -/
theorem runMain_advOk {t : FS} {d0 : Option FS} {cfg : Config} {f : Faults}
    (hd0 : d0 = none ∨ d0 = some [])
    (hcfg : cfg.templateType = TType.advance)
    (hcp : f.copyFails = false) (hgi : f.gitignoreFails = false)
    (hen : f.envFails = false) {g ec : String}
    (hg : findFile t ["git-ignore.txt"] = some g)
    (he : findFile t ["env.example.txt"] = some ec) :
    runMain t d0 cfg f =
      { exitCode := 0,
        dest := some (writeF (writeF
          (advancedPhase t cfg.dbChoice f (copyTree t)) [".gitignore"] g)
          [".env"] (envTransform cfg.templateType cfg.dbChoice ec)) } := by
  have hguard : runAfterGuard t cfg f =
      { exitCode := 0,
        dest := some (writeF (writeF
          (advancedPhase t cfg.dbChoice f (copyTree t)) [".gitignore"] g)
          [".env"] (envTransform cfg.templateType cfg.dbChoice ec)) } := by
    simp only [runAfterGuard, hcp, Bool.false_eq_true, if_false, hcfg,
      if_pos rfl, gitignorePhase_write _ hg hgi]
    rw [envPhase_first _ _ _ he hen]
    simp
  rcases hd0 with h | h <;> subst h <;> simp [runMain, hguard]

/-! ### Name facts about the copy filter -/

/-- A basename accepted by the copy filter is no lockfile and none of the
skipped directory names. -/
theorem copyFilter_names {name : String} (h : copyFilter name = true) :
    name ≠ "pnpm-lock.yaml" ∧ name ≠ "yarn.lock" ∧ name ≠ "bun.lock" ∧
    name ≠ "package-lock.json" ∧ name ≠ "node_modules" ∧ name ≠ "dist" := by
  refine ⟨?_, ?_, ?_, ?_, ?_, ?_⟩ <;> rintro rfl <;> revert h <;> decide

/-- A basename accepted by the copy filter does not end in `.yaml`. -/
theorem copyFilter_yaml {name : String} (h : copyFilter name = true) :
    strEndsWith name ".yaml" = false := by
  unfold copyFilter at h
  split at h
  · exact absurd h Bool.false_ne_true
  · split at h
    · exact absurd h Bool.false_ne_true
    · split at h
      · exact absurd h Bool.false_ne_true
      · simp only [Bool.not_eq_true', Bool.or_eq_false_iff] at h
        exact h.2

/-- Every name component of every destination entry of a fault-free run passes
the copy filter: copied entries by the filter itself, written files because
their fixed paths do. -/
theorem destFS_nf_copyFilter {t : FS} {d0 : Option FS} {cfg : Config}
    {e : Entry} {name : String} (hd0 : d0 = none ∨ d0 = some [])
    (he : e ∈ destFS (runMain t d0 cfg noFaults))
    (hname : name ∈ pathOfE e) : copyFilter name = true := by
  rcases mem_destFS_nf hd0 he with ⟨_, hall⟩ | hw | hw | hw | hw | hw | hw | hw
  · exact List.all_eq_true.mp hall name hname
  all_goals
    obtain ⟨c, rfl⟩ := hw
    refine List.all_eq_true.mp ?_ name hname
    simp only [pathOfE]
    decide

/-! ### Untouched-path views of the partial advanced chains -/

theorem chain2_ne (t : FS) (db : DBChoice) {q : Path}
    (h1 : q ≠ authTsP) (h2 : q ≠ configP) :
    findFile (dialectPure db (swapPure t db (copyTree t))) q =
      (if allPass q then findFile t q else none) := by
  rw [dialectPure_ne _ _ h2, swapPure_ne _ _ _ h1, findFile_copyTree]

theorem chain3_ne (t : FS) (db : DBChoice) {q : Path}
    (h1 : q ≠ authTsP) (h2 : q ≠ configP) (h3 : q ≠ idxP) :
    findFile (indexPure db (dialectPure db (swapPure t db (copyTree t)))) q =
      (if allPass q then findFile t q else none) := by
  rw [indexPure_ne _ _ h3, chain2_ne t db h1 h2]

theorem chain4_ne (t : FS) (db : DBChoice) {q : Path}
    (h1 : q ≠ authTsP) (h2 : q ≠ configP) (h3 : q ≠ idxP)
    (h4 : q ≠ schemaP) :
    findFile (schemaPure (indexPure db (dialectPure db
      (swapPure t db (copyTree t))))) q =
      (if allPass q then findFile t q else none) := by
  rw [schemaPure_ne _ h4, chain3_ne t db h1 h2 h3]

theorem chain5_ne (t : FS) (db : DBChoice) {q : Path}
    (h1 : q ≠ authTsP) (h2 : q ≠ configP) (h3 : q ≠ idxP)
    (h4 : q ≠ schemaP) (h5 : q ≠ authUtilP) :
    findFile (authPure db (schemaPure (indexPure db (dialectPure db
      (swapPure t db (copyTree t)))))) q =
      (if allPass q then findFile t q else none) := by
  rw [authPure_ne _ _ h5, chain4_ne t db h1 h2 h3 h4]

/-! ### The claims -/

/-- C1: for every destination directory that exists and contains at least one
entry, the run aborts with exit code 1 before the copy phase and the
destination tree is returned unchanged, whatever the template, configuration
and fault pattern. -/
theorem claim_C1_nonempty_guard (t : FS) (cfg : Config) (f : Faults)
    (fs : FS) (h : fs ≠ []) :
    runMain t (some fs) cfg f = { exitCode := 1, dest := some fs } := by
  have hl : fs.length > 0 := List.length_pos.mpr h
  simp [runMain, hl]

/-- Witness for C1 at a destination holding one entry. -/
theorem witness_C1 :
    ([Entry.dir ["stuff"]] : FS) ≠ [] ∧
    runMain [] (some [Entry.dir ["stuff"]]) cfgBasic noFaults =
      { exitCode := 1, dest := some [Entry.dir ["stuff"]] } :=
  ⟨by decide, claim_C1_nonempty_guard [] cfgBasic noFaults _ (by decide)⟩

/-- C2: for every fault-free Advanced run whose template provides the selected
auth-schema variant, and whose variant/canonical auth-schema basenames occur
only at their standard locations, the destination contains
`src/drizzle/auth-schema.ts` with exactly the selected variant's template
content (pg for neon, sqlite otherwise), the canonical basename occurs only
there, and no file named `auth-schema.sqlite.ts` or `auth-schema.pg.ts`
survives anywhere in the destination tree. -/
theorem claim_C2_variant_exclusivity (t : FS) (d0 : Option FS) (cfg : Config)
    (hd0 : d0 = none ∨ d0 = some [])
    (hcfg : cfg.templateType = TType.advance)
    {csel : String} (hsel : findFile t (selVarP cfg.dbChoice) = some csel)
    (hvar : variantNamesOk t = true) :
    destLookup (runMain t d0 cfg noFaults) authTsP = some csel ∧
    destLookup (runMain t d0 cfg noFaults) pgVarP = none ∧
    destLookup (runMain t d0 cfg noFaults) sqVarP = none ∧
    ∀ p c, Entry.file p c ∈ destFS (runMain t d0 cfg noFaults) →
      p.getLast? ≠ some "auth-schema.sqlite.ts" ∧
      p.getLast? ≠ some "auth-schema.pg.ts" ∧
      (p.getLast? = some "auth-schema.ts" → p = authTsP) := by
  have hX : destFS (runMain t d0 cfg noFaults) =
      envPhase t cfg.templateType cfg.dbChoice noFaults
        (gitignorePure t (advPure t cfg.dbChoice (copyTree t))) := by
    rw [runMain_adv_nf t hd0 hcfg]
    rfl
  have h1 : destLookup (runMain t d0 cfg noFaults) authTsP = some csel := by
    rw [destLookup, hX, envPhase_ne _ _ _ _ _ (by decide),
      gitignorePure_ne _ _ (by decide)]
    exact advPure_authTs t _ _ hsel
  have h2 : destLookup (runMain t d0 cfg noFaults) pgVarP = none := by
    rw [destLookup, hX, envPhase_ne _ _ _ _ _ (by decide),
      gitignorePure_ne _ _ (by decide)]
    exact advPure_pg t _ _
  have h3 : destLookup (runMain t d0 cfg noFaults) sqVarP = none := by
    rw [destLookup, hX, envPhase_ne _ _ _ _ _ (by decide),
      gitignorePure_ne _ _ (by decide)]
    exact advPure_sq t _ _
  refine ⟨h1, h2, h3, ?_⟩
  intro p c hmem
  have hps := findFile_isSome_of_mem hmem
  simp only [destLookup] at h2 h3
  rcases mem_destFS_nf hd0 hmem with ⟨hT, _⟩ | hw | hw | hw | hw | hw | hw | hw
  · have hchk := of_decide_eq_true (List.all_eq_true.mp hvar _ hT)
    obtain ⟨i1, i2, i3⟩ := hchk
    refine ⟨?_, ?_, i3⟩
    · intro hlast
      rw [i1 hlast] at hps
      rw [h3] at hps
      simp at hps
    · intro hlast
      rw [i2 hlast] at hps
      rw [h2] at hps
      simp at hps
  all_goals
    obtain ⟨c', hEq⟩ := hw
    injection hEq with hp hc
    subst hp
    decide

/-- Witness for C2 on the sample advanced template with the sqlite choice. -/
theorem witness_C2 :
    destLookup (runMain wT none cfgAdvSqlite noFaults) authTsP = some "SQ" ∧
    destLookup (runMain wT none cfgAdvSqlite noFaults) pgVarP = none ∧
    destLookup (runMain wT none cfgAdvSqlite noFaults) sqVarP = none := by
  have h := @claim_C2_variant_exclusivity wT none cfgAdvSqlite (Or.inl rfl)
    rfl "SQ" (by decide) (by decide)
  exact ⟨h.1, h.2.1, h.2.2.1⟩

/-- C3: with the repository's `drizzle.config.ts` template content, every
fault-free Advanced neon run materializes the config with the dialect token
`"postgresql"` (the template's single `dialect: "sqlite"` occurrence is
replaced and none survives), and every fault-free Advanced sqlite run keeps
the template content, dialect token `"sqlite"`, unchanged. -/
theorem claim_C3_dialect_consistency (t : FS) (d0 : Option FS)
    (hd0 : d0 = none ∨ d0 = some [])
    (hcfgT : findFile t configP = some drizzleConfigSrc) :
    (∀ cfg : Config, cfg.templateType = TType.advance →
      cfg.dbChoice = DBChoice.neon →
      destLookup (runMain t d0 cfg noFaults) configP
        = some drizzleConfigPg) ∧
    (∀ cfg : Config, cfg.templateType = TType.advance →
      cfg.dbChoice = DBChoice.sqlite →
      destLookup (runMain t d0 cfg noFaults) configP
        = some drizzleConfigSrc) ∧
    replaceDialect drizzleConfigSrc = drizzleConfigPg ∧
    hasMatch matchDialectSqlite drizzleConfigPg.data = false ∧
    hasMatch (litMatch "dialect: \"postgresql\"".data) drizzleConfigPg.data
      = true := by
  have hrepl : replaceDialect drizzleConfigSrc = drizzleConfigPg := by decide
  refine ⟨?_, ?_, hrepl, by decide, by decide⟩
  · intro cfg hadv hneon
    have hX : destFS (runMain t d0 cfg noFaults) =
        envPhase t cfg.templateType cfg.dbChoice noFaults
          (gitignorePure t (advPure t cfg.dbChoice (copyTree t))) := by
      rw [runMain_adv_nf t hd0 hadv]
      rfl
    rw [destLookup, hX, envPhase_ne _ _ _ _ _ (by decide),
      gitignorePure_ne _ _ (by decide), advPure_config, hneon, if_pos rfl,
      findFile_copyTree, if_pos (by decide), hcfgT]
    simp [hrepl]
  · intro cfg hadv hsq
    have hX : destFS (runMain t d0 cfg noFaults) =
        envPhase t cfg.templateType cfg.dbChoice noFaults
          (gitignorePure t (advPure t cfg.dbChoice (copyTree t))) := by
      rw [runMain_adv_nf t hd0 hadv]
      rfl
    rw [destLookup, hX, envPhase_ne _ _ _ _ _ (by decide),
      gitignorePure_ne _ _ (by decide), advPure_config, hsq,
      if_neg (by decide), findFile_copyTree, if_pos (by decide), hcfgT]

/-- Witness for C3 on the sample template, both database choices. -/
theorem witness_C3 :
    destLookup (runMain wT none cfgAdvNeon noFaults) configP
      = some drizzleConfigPg ∧
    destLookup (runMain wT none cfgAdvSqlite noFaults) configP
      = some drizzleConfigSrc := by
  have h := claim_C3_dialect_consistency wT none (Or.inl rfl) rfl
  exact ⟨h.1 cfgAdvNeon rfl rfl, h.2.1 cfgAdvSqlite rfl rfl⟩

/-- C4 counterexample: the claim says that when a rewrite target is absent
after the bulk copy no file is created at that path; but `main` writes the
DB-connector bootstrap `src/drizzle/index.ts` unconditionally (line 206-217),
so on an empty template the run completes AND the file appears. -/
theorem claim_C4_counterexample :
    findFile ([] : FS) idxP = none ∧
    (runMain [] none cfgAdvSqlite noFaults).exitCode = 0 ∧
    destLookup (runMain [] none cfgAdvSqlite noFaults) idxP
      = some sqliteDrizzleIndex :=
  ⟨rfl, rfl, rfl⟩

/-- C4 amended: of the three rewrite targets, the dialect config
`drizzle.config.ts` and the auth-provider file `src/utils/auth.ts` are
existence-guarded — when absent after the bulk copy the run still completes
with exit code 0 and no file is created at those paths — but the DB-connector
bootstrap `src/drizzle/index.ts` is written unconditionally with the chosen
whole-file snippet, creating it even when absent. -/
theorem claim_C4_amended (t : FS) (d0 : Option FS) (cfg : Config)
    (hd0 : d0 = none ∨ d0 = some [])
    (hcfg : cfg.templateType = TType.advance)
    (hc1 : findFile t configP = none)
    (hc2 : findFile t authUtilP = none) :
    (runMain t d0 cfg noFaults).exitCode = 0 ∧
    destLookup (runMain t d0 cfg noFaults) configP = none ∧
    destLookup (runMain t d0 cfg noFaults) authUtilP = none ∧
    destLookup (runMain t d0 cfg noFaults) idxP =
      some (if cfg.dbChoice = DBChoice.neon then neonDrizzleIndex
            else sqliteDrizzleIndex) := by
  have hX : destFS (runMain t d0 cfg noFaults) =
      envPhase t cfg.templateType cfg.dbChoice noFaults
        (gitignorePure t (advPure t cfg.dbChoice (copyTree t))) := by
    rw [runMain_adv_nf t hd0 hcfg]
    rfl
  refine ⟨?_, ?_, ?_, ?_⟩
  · rw [runMain_adv_nf t hd0 hcfg]
  · rw [destLookup, hX, envPhase_ne _ _ _ _ _ (by decide),
      gitignorePure_ne _ _ (by decide), advPure_config, findFile_copyTree,
      if_pos (show allPass configP = true from by decide), hc1]
    simp
  · rw [destLookup, hX, envPhase_ne _ _ _ _ _ (by decide),
      gitignorePure_ne _ _ (by decide), advPure_authUtil, findFile_copyTree,
      if_pos (show allPass authUtilP = true from by decide), hc2]
    rfl
  · rw [destLookup, hX, envPhase_ne _ _ _ _ _ (by decide),
      gitignorePure_ne _ _ (by decide), advPure_idx]

/-- Witness for C4 amended on a template holding none of the three targets. -/
theorem witness_C4 :
    (runMain [Entry.file ["a.txt"] "A"] none cfgAdvSqlite noFaults).exitCode
      = 0 ∧
    destLookup (runMain [Entry.file ["a.txt"] "A"] none cfgAdvSqlite noFaults)
      configP = none ∧
    destLookup (runMain [Entry.file ["a.txt"] "A"] none cfgAdvSqlite noFaults)
      authUtilP = none ∧
    destLookup (runMain [Entry.file ["a.txt"] "A"] none cfgAdvSqlite noFaults)
      idxP = some (if cfgAdvSqlite.dbChoice = DBChoice.neon
                   then neonDrizzleIndex else sqliteDrizzleIndex) :=
  claim_C4_amended _ none cfgAdvSqlite (Or.inl rfl) rfl rfl rfl

/-- C5 counterexample: the claim says an I/O error in a post-copy step aborts
all remaining plan steps and surfaces a fatal error; but when the variant swap
throws (source present, `swapFails`), the run exits 0 (no fatal error), the
`.gitignore` and `.env` steps still run, and only the remaining advanced steps
are skipped (the variant file survives because its deletion never ran). -/
theorem claim_C5_counterexample :
    fSwap.swapFails = true ∧
    findFile t5 (selVarP cfgAdvSqlite.dbChoice) = some "S" ∧
    (runMain t5 none cfgAdvSqlite fSwap).exitCode = 0 ∧
    destLookup (runMain t5 none cfgAdvSqlite fSwap) [".gitignore"]
      = some "GI" ∧
    destLookup (runMain t5 none cfgAdvSqlite fSwap) [".env"] = some "E" ∧
    destLookup (runMain t5 none cfgAdvSqlite fSwap) sqVarP = some "S" :=
  ⟨rfl, rfl, rfl, rfl, rfl, rfl⟩

/-- C5 amended: an I/O error in any advanced post-copy step — the variant
swap, any of the rewrites, or a variant deletion — is caught and logged (the
block's own `catch`, line 275-277, or the deletion's ignoring `catch`, lines
265-274): the steps before the failing one have run, the steps after it are
skipped, deletion errors are swallowed individually (the other deletion still
runs), and in every case the run surfaces no fatal error and the `.gitignore`
and `.env` materialization steps still execute. -/
theorem claim_C5_amended (t : FS) (d0 : Option FS) (cfg : Config)
    (hd0 : d0 = none ∨ d0 = some [])
    (hcfg : cfg.templateType = TType.advance)
    {g ec csel : String}
    (hg : findFile t ["git-ignore.txt"] = some g)
    (he : findFile t ["env.example.txt"] = some ec)
    (hsel : findFile t (selVarP cfg.dbChoice) = some csel) :
    -- (1) advanced-step failures, in any combination, are never fatal and
    -- the .gitignore and .env steps still run
    (∀ sw dl ix sc au rp rs : Bool,
      (runMain t d0 cfg (fAdvOnly sw dl ix sc au rp rs)).exitCode = 0 ∧
      destLookup (runMain t d0 cfg (fAdvOnly sw dl ix sc au rp rs))
        [".gitignore"] = some g ∧
      destLookup (runMain t d0 cfg (fAdvOnly sw dl ix sc au rp rs)) [".env"]
        = some (envTransform cfg.templateType cfg.dbChoice ec)) ∧
    -- (2) failing swap: the whole remaining block is skipped, the
    -- destination keeps the bulk-copied state everywhere
    (∀ dl ix sc au rp rs : Bool, ∀ p, p ≠ [".gitignore"] → p ≠ [".env"] →
      destLookup (runMain t d0 cfg (fAdvOnly true dl ix sc au rp rs)) p =
        (if allPass p then findFile t p else none)) ∧
    -- (3) failing dialect rewrite (neon, config present): the swap has run,
    -- everything after the rewrite is skipped
    (cfg.dbChoice = DBChoice.neon →
      ∀ cc : String, findFile t configP = some cc →
      ∀ ix sc au rp rs : Bool,
      destLookup (runMain t d0 cfg (fAdvOnly false true ix sc au rp rs))
        authTsP = some csel ∧
      ∀ p, p ≠ [".gitignore"] → p ≠ [".env"] → p ≠ authTsP →
        destLookup (runMain t d0 cfg (fAdvOnly false true ix sc au rp rs)) p
          = (if allPass p then findFile t p else none)) ∧
    -- (4) failing connector write: swap and dialect rewrite have run, the
    -- connector keeps its bulk-copied state, the rest is skipped
    (∀ sc au rp rs : Bool,
      destLookup (runMain t d0 cfg (fAdvOnly false false true sc au rp rs))
        authTsP = some csel ∧
      destLookup (runMain t d0 cfg (fAdvOnly false false true sc au rp rs))
        configP = (if cfg.dbChoice = DBChoice.neon
          then (findFile t configP).map replaceDialect
          else findFile t configP) ∧
      ∀ p, p ≠ [".gitignore"] → p ≠ [".env"] → p ≠ authTsP → p ≠ configP →
        destLookup (runMain t d0 cfg (fAdvOnly false false true sc au rp rs))
          p = (if allPass p then findFile t p else none)) ∧
    -- (5) failing schema rewrite (schema present): the connector write has
    -- run, the auth rewrite and the deletions are skipped
    (∀ sc0 : String, findFile t schemaP = some sc0 → ∀ au rp rs : Bool,
      destLookup (runMain t d0 cfg (fAdvOnly false false false true au rp rs))
        idxP = some (if cfg.dbChoice = DBChoice.neon then neonDrizzleIndex
                     else sqliteDrizzleIndex) ∧
      destLookup (runMain t d0 cfg (fAdvOnly false false false true au rp rs))
        schemaP = some sc0 ∧
      destLookup (runMain t d0 cfg (fAdvOnly false false false true au rp rs))
        authUtilP = findFile t authUtilP ∧
      destLookup (runMain t d0 cfg (fAdvOnly false false false true au rp rs))
        pgVarP = findFile t pgVarP ∧
      destLookup (runMain t d0 cfg (fAdvOnly false false false true au rp rs))
        sqVarP = findFile t sqVarP) ∧
    -- (6) failing auth rewrite (auth file present): the schema rewrite has
    -- run, the deletions are skipped
    (∀ au0 : String, findFile t authUtilP = some au0 → ∀ rp rs : Bool,
      destLookup (runMain t d0 cfg
          (fAdvOnly false false false false true rp rs)) schemaP =
        (findFile t schemaP).map replaceSchemaImport ∧
      destLookup (runMain t d0 cfg
          (fAdvOnly false false false false true rp rs)) authUtilP
        = some au0 ∧
      destLookup (runMain t d0 cfg
          (fAdvOnly false false false false true rp rs)) pgVarP
        = findFile t pgVarP ∧
      destLookup (runMain t d0 cfg
          (fAdvOnly false false false false true rp rs)) sqVarP
        = findFile t sqVarP) ∧
    -- (7) a failing pg-variant deletion is swallowed individually: the
    -- sqlite-variant deletion still runs
    (destLookup (runMain t d0 cfg
        (fAdvOnly false false false false false true false)) pgVarP
      = findFile t pgVarP ∧
     destLookup (runMain t d0 cfg
        (fAdvOnly false false false false false true false)) sqVarP
      = none) ∧
    -- (8) a failing sqlite-variant deletion is swallowed individually: the
    -- pg-variant deletion has already run
    (destLookup (runMain t d0 cfg
        (fAdvOnly false false false false false false true)) pgVarP
      = none ∧
     destLookup (runMain t d0 cfg
        (fAdvOnly false false false false false false true)) sqVarP
      = findFile t sqVarP) := by
  have hkey : ∀ f : Faults, f.copyFails = false → f.gitignoreFails = false →
      f.envFails = false → runMain t d0 cfg f =
        { exitCode := 0,
          dest := some (writeF (writeF
            (advancedPhase t cfg.dbChoice f (copyTree t)) [".gitignore"] g)
            [".env"] (envTransform cfg.templateType cfg.dbChoice ec)) } :=
    fun _ hcp hgi hen => runMain_advOk hd0 hcfg hcp hgi hen hg he
  refine ⟨?_, ?_, ?_, ?_, ?_, ?_, ?_, ?_⟩
  · -- (1)
    intro sw dl ix sc au rp rs
    rw [hkey _ rfl rfl rfl]
    refine ⟨rfl, ?_, ?_⟩
    · simp only [destLookup, destFS, Option.getD_some]
      rw [findFile_writeF_ne _ _ (by decide), findFile_writeF_self]
    · simp only [destLookup, destFS, Option.getD_some]
      rw [findFile_writeF_self]
  · -- (2)
    intro dl ix sc au rp rs p hp1 hp2
    rw [destLookup, hkey _ rfl rfl rfl]
    simp only [destFS, Option.getD_some]
    rw [findFile_writeF_ne _ _ hp2, findFile_writeF_ne _ _ hp1,
      advancedPhase_swapFault _ rfl hsel, findFile_copyTree]
  · -- (3)
    intro hneon cc hcc ix sc au rp rs
    have hcc2 : findFile (swapPure t cfg.dbChoice (copyTree t)) configP
        = some cc := by
      rw [swapPure_ne _ _ _ (by decide), findFile_copyTree,
        if_pos (show allPass configP = true from by decide)]
      exact hcc
    have hadv := @advancedPhase_dialectFault
      (fAdvOnly false true ix sc au rp rs) t cfg.dbChoice (copyTree t)
      rfl rfl hneon cc hcc2
    constructor
    · rw [destLookup, hkey _ rfl rfl rfl]
      simp only [destFS, Option.getD_some]
      rw [findFile_writeF_ne _ _ (by decide),
        findFile_writeF_ne _ _ (by decide), hadv,
        swapPure_authTs t _ _ hsel]
    · intro p hp1 hp2 hp3
      rw [destLookup, hkey _ rfl rfl rfl]
      simp only [destFS, Option.getD_some]
      rw [findFile_writeF_ne _ _ hp2, findFile_writeF_ne _ _ hp1, hadv,
        swapPure_ne _ _ _ hp3, findFile_copyTree]
  · -- (4)
    intro sc au rp rs
    have hadv := @advancedPhase_indexFault
      (fAdvOnly false false true sc au rp rs) t cfg.dbChoice (copyTree t)
      rfl rfl rfl
    refine ⟨?_, ?_, ?_⟩
    · rw [destLookup, hkey _ rfl rfl rfl]
      simp only [destFS, Option.getD_some]
      rw [findFile_writeF_ne _ _ (by decide),
        findFile_writeF_ne _ _ (by decide), hadv,
        dialectPure_ne _ _ (by decide), swapPure_authTs t _ _ hsel]
    · rw [destLookup, hkey _ rfl rfl rfl]
      simp only [destFS, Option.getD_some]
      rw [findFile_writeF_ne _ _ (by decide),
        findFile_writeF_ne _ _ (by decide), hadv, dialectPure_config,
        swapPure_ne _ _ _ (by decide), findFile_copyTree,
        if_pos (show allPass configP = true from by decide)]
    · intro p hp1 hp2 hp3 hp4
      rw [destLookup, hkey _ rfl rfl rfl]
      simp only [destFS, Option.getD_some]
      rw [findFile_writeF_ne _ _ hp2, findFile_writeF_ne _ _ hp1, hadv,
        chain2_ne t _ hp3 hp4]
  · -- (5)
    intro sc0 hsc0 au rp rs
    have hs : findFile (indexPure cfg.dbChoice (dialectPure cfg.dbChoice
        (swapPure t cfg.dbChoice (copyTree t)))) schemaP = some sc0 := by
      rw [chain3_ne t _ (by decide) (by decide) (by decide),
        if_pos (show allPass schemaP = true from by decide)]
      exact hsc0
    have hadv := @advancedPhase_schemaFault
      (fAdvOnly false false false true au rp rs) t cfg.dbChoice (copyTree t)
      rfl rfl rfl rfl sc0 hs
    refine ⟨?_, ?_, ?_, ?_, ?_⟩ <;> rw [destLookup, hkey _ rfl rfl rfl] <;>
      simp only [destFS, Option.getD_some] <;>
      rw [findFile_writeF_ne _ _ (by decide),
        findFile_writeF_ne _ _ (by decide), hadv]
    · simp [indexPure, findFile_writeF_self]
    · rw [chain3_ne t _ (by decide) (by decide) (by decide),
        if_pos (show allPass schemaP = true from by decide)]
      exact hsc0
    · rw [chain3_ne t _ (by decide) (by decide) (by decide),
        if_pos (show allPass authUtilP = true from by decide)]
    · rw [chain3_ne t _ (by decide) (by decide) (by decide),
        if_pos (show allPass pgVarP = true from by decide)]
    · rw [chain3_ne t _ (by decide) (by decide) (by decide),
        if_pos (show allPass sqVarP = true from by decide)]
  · -- (6)
    intro au0 hau0 rp rs
    have ha : findFile (schemaPure (indexPure cfg.dbChoice
        (dialectPure cfg.dbChoice (swapPure t cfg.dbChoice (copyTree t)))))
        authUtilP = some au0 := by
      rw [chain4_ne t _ (by decide) (by decide) (by decide) (by decide),
        if_pos (show allPass authUtilP = true from by decide)]
      exact hau0
    have hadv := @advancedPhase_authFault
      (fAdvOnly false false false false true rp rs) t cfg.dbChoice
      (copyTree t) rfl rfl rfl rfl rfl au0 ha
    refine ⟨?_, ?_, ?_, ?_⟩ <;> rw [destLookup, hkey _ rfl rfl rfl] <;>
      simp only [destFS, Option.getD_some] <;>
      rw [findFile_writeF_ne _ _ (by decide),
        findFile_writeF_ne _ _ (by decide), hadv]
    · rw [schemaPure_schema, chain3_ne t _ (by decide) (by decide)
        (by decide), if_pos (show allPass schemaP = true from by decide)]
    · rw [chain4_ne t _ (by decide) (by decide) (by decide) (by decide),
        if_pos (show allPass authUtilP = true from by decide)]
      exact hau0
    · rw [chain4_ne t _ (by decide) (by decide) (by decide) (by decide),
        if_pos (show allPass pgVarP = true from by decide)]
    · rw [chain4_ne t _ (by decide) (by decide) (by decide) (by decide),
        if_pos (show allPass sqVarP = true from by decide)]
  · -- (7)
    have hadv := @advancedPhase_rmOnly
      (fAdvOnly false false false false false true false) t cfg.dbChoice
      (copyTree t) rfl rfl rfl rfl rfl
    have hrm : rmPureF (fAdvOnly false false false false false true false)
        (authPure cfg.dbChoice (schemaPure (indexPure cfg.dbChoice
          (dialectPure cfg.dbChoice (swapPure t cfg.dbChoice
            (copyTree t)))))) =
        removeFile (authPure cfg.dbChoice (schemaPure (indexPure cfg.dbChoice
          (dialectPure cfg.dbChoice (swapPure t cfg.dbChoice
            (copyTree t)))))) sqVarP := by
      simp [rmPureF, fAdvOnly]
    constructor <;> rw [destLookup, hkey _ rfl rfl rfl] <;>
      simp only [destFS, Option.getD_some] <;>
      rw [findFile_writeF_ne _ _ (by decide),
        findFile_writeF_ne _ _ (by decide), hadv, hrm]
    · rw [findFile_removeFile_ne _ (by decide),
        chain5_ne t _ (by decide) (by decide) (by decide) (by decide)
          (by decide),
        if_pos (show allPass pgVarP = true from by decide)]
    · rw [findFile_removeFile_self]
  · -- (8)
    have hadv := @advancedPhase_rmOnly
      (fAdvOnly false false false false false false true) t cfg.dbChoice
      (copyTree t) rfl rfl rfl rfl rfl
    have hrm : rmPureF (fAdvOnly false false false false false false true)
        (authPure cfg.dbChoice (schemaPure (indexPure cfg.dbChoice
          (dialectPure cfg.dbChoice (swapPure t cfg.dbChoice
            (copyTree t)))))) =
        removeFile (authPure cfg.dbChoice (schemaPure (indexPure cfg.dbChoice
          (dialectPure cfg.dbChoice (swapPure t cfg.dbChoice
            (copyTree t)))))) pgVarP := by
      simp [rmPureF, fAdvOnly]
    constructor <;> rw [destLookup, hkey _ rfl rfl rfl] <;>
      simp only [destFS, Option.getD_some] <;>
      rw [findFile_writeF_ne _ _ (by decide),
        findFile_writeF_ne _ _ (by decide), hadv, hrm]
    · rw [findFile_removeFile_self]
    · rw [findFile_removeFile_ne _ (by decide),
        chain5_ne t _ (by decide) (by decide) (by decide) (by decide)
          (by decide),
        if_pos (show allPass sqVarP = true from by decide)]

/-- Witness for C5 amended on the counterexample fixture: a run with every
advanced step failing still exits 0 and writes `.gitignore` and `.env`; a
failing swap leaves the variant in place; a failing pg-variant deletion still
lets the sqlite-variant deletion run. -/
theorem witness_C5 :
    (runMain t5 none cfgAdvSqlite
      (fAdvOnly true true true true true true true)).exitCode = 0 ∧
    destLookup (runMain t5 none cfgAdvSqlite
      (fAdvOnly true true true true true true true)) [".gitignore"]
      = some "GI" ∧
    destLookup (runMain t5 none cfgAdvSqlite
      (fAdvOnly true true true true true true true)) [".env"]
      = some (envTransform cfgAdvSqlite.templateType cfgAdvSqlite.dbChoice
          "E") ∧
    destLookup (runMain t5 none cfgAdvSqlite
      (fAdvOnly true false false false false false false)) sqVarP
      = (if allPass sqVarP then findFile t5 sqVarP else none) ∧
    destLookup (runMain t5 none cfgAdvSqlite
      (fAdvOnly false false false false false true false)) pgVarP
      = findFile t5 pgVarP ∧
    destLookup (runMain t5 none cfgAdvSqlite
      (fAdvOnly false false false false false true false)) sqVarP
      = none := by
  have h := @claim_C5_amended t5 none cfgAdvSqlite (Or.inl rfl) rfl
    "GI" "E" "S" rfl rfl rfl
  refine ⟨(h.1 true true true true true true true).1,
    (h.1 true true true true true true true).2.1,
    (h.1 true true true true true true true).2.2,
    h.2.1 false false false false false false sqVarP (by decide) (by decide),
    (h.2.2.2.2.2.2.1).1, (h.2.2.2.2.2.2.1).2⟩

/-- C6: for every fault-free Advanced run whose template provides
`env.example.txt` (with LF-only line endings, the domain on which the line
model is exact): with neon the generated `.env` is the stripped content, in
which no line starts with `DATABASE_URL=`; with sqlite the generated `.env`
equals the example content verbatim, DATABASE_URL line included. -/
theorem claim_C6_env_stripping (t : FS) (d0 : Option FS) (cfg : Config)
    (hd0 : d0 = none ∨ d0 = some [])
    (hcfg : cfg.templateType = TType.advance)
    {c : String} (he : findFile t ["env.example.txt"] = some c)
    (_hcr : '\r' ∉ c.data) :
    (cfg.dbChoice = DBChoice.neon →
      destLookup (runMain t d0 cfg noFaults) [".env"] = some (envStrip c) ∧
      ∀ l ∈ splitLines (envStrip c).data, ¬ ("DATABASE_URL=".data <+: l)) ∧
    (cfg.dbChoice = DBChoice.sqlite →
      destLookup (runMain t d0 cfg noFaults) [".env"] = some c) := by
  have hX : destFS (runMain t d0 cfg noFaults) =
      envPhase t cfg.templateType cfg.dbChoice noFaults
        (gitignorePure t (advPure t cfg.dbChoice (copyTree t))) := by
    rw [runMain_adv_nf t hd0 hcfg]
    rfl
  constructor
  · intro hneon
    refine ⟨?_, envStrip_no_dbUrl c⟩
    rw [destLookup, hX, envPhase_first _ _ _ he rfl, findFile_writeF_self,
      hcfg, hneon]
    simp [envTransform]
  · intro hsq
    rw [destLookup, hX, envPhase_first _ _ _ he rfl, findFile_writeF_self,
      hcfg, hsq]
    simp [envTransform]

/-- Witness for C6 on the sample template, both database choices. -/
theorem witness_C6 :
    destLookup (runMain wT none cfgAdvNeon noFaults) [".env"]
      = some (envStrip "PORT=3000\nDATABASE_URL=file:local.db\nX=1") ∧
    destLookup (runMain wT none cfgAdvSqlite noFaults) [".env"]
      = some "PORT=3000\nDATABASE_URL=file:local.db\nX=1" := by
  have h1 := @claim_C6_env_stripping wT none cfgAdvNeon (Or.inl rfl) rfl
    "PORT=3000\nDATABASE_URL=file:local.db\nX=1" rfl (by decide)
  have h2 := @claim_C6_env_stripping wT none cfgAdvSqlite (Or.inl rfl) rfl
    "PORT=3000\nDATABASE_URL=file:local.db\nX=1" rfl (by decide)
  exact ⟨(h1.1 rfl).1, h2.2 rfl⟩

/-- C7: for every fault-free run from an empty or missing destination, no
entry of the destination tree — at any depth — carries one of the lockfile
names `pnpm-lock.yaml`, `yarn.lock`, `bun.lock`, `package-lock.json`, nor the
directory names `node_modules` or `dist`, whatever the template contains. -/
theorem claim_C7_lockfile_exclusion (t : FS) (d0 : Option FS) (cfg : Config)
    (hd0 : d0 = none ∨ d0 = some []) :
    ∀ e ∈ destFS (runMain t d0 cfg noFaults), ∀ name ∈ pathOfE e,
      name ≠ "pnpm-lock.yaml" ∧ name ≠ "yarn.lock" ∧ name ≠ "bun.lock" ∧
      name ≠ "package-lock.json" ∧ name ≠ "node_modules" ∧ name ≠ "dist" :=
  fun _ he _ hname => copyFilter_names (destFS_nf_copyFilter hd0 he hname)

/-- Witness for C7: the sample template contains `pnpm-lock.yaml` and
`node_modules`, and an ordinary destination file's name is none of the
excluded ones. -/
theorem witness_C7 :
    Entry.file ["pnpm-lock.yaml"] "lock" ∈ wT ∧
    Entry.file ["a.txt"] "A" ∈ destFS (runMain wT none cfgAdvSqlite noFaults)
      ∧ ("a.txt" ≠ "pnpm-lock.yaml" ∧ "a.txt" ≠ "yarn.lock" ∧
         "a.txt" ≠ "bun.lock" ∧ "a.txt" ≠ "package-lock.json" ∧
         "a.txt" ≠ "node_modules" ∧ "a.txt" ≠ "dist") := by
  have hmem : Entry.file ["a.txt"] "A" ∈
      destFS (runMain wT none cfgAdvSqlite noFaults) := by decide
  exact ⟨by decide, hmem,
    claim_C7_lockfile_exclusion wT none cfgAdvSqlite (Or.inl rfl) _ hmem
      "a.txt" (by decide)⟩

/-- C8: every fault-free Basic run exits 0 and its destination tree is
pointwise the spec-side mirror view: the filtered template content at every
ordinary path — so no Advanced-only swap or rewrite ever touches a file — with
only `.gitignore` seeded from `git-ignore.txt` and `.env` seeded from the
first readable env example. -/
theorem claim_C8_basic_mirror (t : FS) (d0 : Option FS) (cfg : Config)
    (hd0 : d0 = none ∨ d0 = some [])
    (hb : cfg.templateType = TType.basic) :
    (runMain t d0 cfg noFaults).exitCode = 0 ∧
    ∀ p, destLookup (runMain t d0 cfg noFaults) p = basicMirrorView t p := by
  have hX : destFS (runMain t d0 cfg noFaults) =
      envPhase t cfg.templateType cfg.dbChoice noFaults
        (gitignorePure t (copyTree t)) := by
    rw [runMain_basic_nf t hd0 hb]
    rfl
  refine ⟨by rw [runMain_basic_nf t hd0 hb], ?_⟩
  intro p
  have hc1 : findFile (gitignorePure t (copyTree t)) ["env.example.txt"] =
      findFile t ["env.example.txt"] := by
    rw [gitignorePure_ne _ _ (by decide), findFile_copyTree,
      if_pos (show allPass ["env.example.txt"] = true from by decide)]
  have hc2 : findFile (gitignorePure t (copyTree t)) ["env.example"] =
      findFile t ["env.example"] := by
    rw [gitignorePure_ne _ _ (by decide), findFile_copyTree,
      if_pos (show allPass ["env.example"] = true from by decide)]
  rw [destLookup, hX]
  by_cases hp1 : p = [".env"]
  · subst hp1
    rw [basicMirrorView, if_pos rfl]
    simp only [envPhase, show noFaults.envFails = false from rfl,
      Bool.false_eq_true, if_false, envCands, hc1, hc2]
    cases ha : findFile t ["env.example.txt"] with
    | some c =>
      simp only [firstSome, findFile_writeF_self]
      simp [envTransform, hb]
    | none =>
      cases hb2 : findFile t ["env.example"] with
      | some c =>
        simp only [firstSome, findFile_writeF_self]
        simp [envTransform, hb]
      | none =>
        simp only [firstSome]
        rw [gitignorePure_ne _ _ (by decide), findFile_copyTree,
          if_pos (show allPass [".env"] = true from by decide)]
  · by_cases hp2 : p = [".gitignore"]
    · subst hp2
      rw [envPhase_ne _ _ _ _ _ (by decide),
        basicMirrorView, if_neg (by decide), if_pos rfl]
      unfold gitignorePure
      cases hgi : findFile t ["git-ignore.txt"] with
      | some g => simp [findFile_writeF_self]
      | none =>
        rw [findFile_copyTree,
          if_pos (show allPass [".gitignore"] = true from by decide)]
    · rw [envPhase_ne _ _ _ _ _ hp1, gitignorePure_ne _ _ hp2,
        findFile_copyTree, basicMirrorView, if_neg hp1, if_neg hp2]

/-- Witness for C8 on the sample template: exit 0 and an ordinary file
mirrored byte-for-byte. -/
theorem witness_C8 :
    (runMain wT none cfgBasic noFaults).exitCode = 0 ∧
    destLookup (runMain wT none cfgBasic noFaults) ["a.txt"]
      = basicMirrorView wT ["a.txt"] := by
  have h := claim_C8_basic_mirror wT none cfgBasic (Or.inl rfl) rfl
  exact ⟨h.1, h.2 ["a.txt"]⟩

/-- C9 counterexample: the claim says exit code 1 occurs exactly for a
non-empty target directory or a bulk-copy failure; but a run whose destination
was empty and whose bulk copy succeeded still exits 1 when the `.gitignore`
write fails, because that write sits inside the same fatal `try` (line
280-317). -/
theorem claim_C9_counterexample :
    (runMain t9 none cfgBasic fGitignore).exitCode = 1 ∧
    fGitignore.copyFails = false ∧
    ¬ ∃ fs : FS, (none : Option FS) = some fs ∧ fs ≠ [] := by
  refine ⟨rfl, rfl, ?_⟩
  rintro ⟨fs, h, -⟩
  exact Option.noConfusion h

/-- C9 amended: the exit code is 1 exactly when the destination pre-existed
non-empty, the bulk copy failed, or the `.gitignore` write failed with the
seed file present; git-init and install failures are caught and logged at
their call sites and change neither the exit code nor the destination tree. -/
theorem claim_C9_amended (t : FS) (d0 : Option FS) (cfg : Config)
    (f : Faults) :
    ((runMain t d0 cfg f).exitCode = 1 ↔
      (∃ fs, d0 = some fs ∧ fs ≠ []) ∨ f.copyFails = true ∨
      (f.gitignoreFails = true ∧
        (findFile t ["git-ignore.txt"]).isSome = true)) ∧
    ∀ b1 b2, runMain t d0 cfg
        { f with gitInitFails := b1, installFails := b2 } =
      runMain t d0 cfg f := by
  constructor
  · cases d0 with
    | none =>
      simp only [runMain]
      rw [runAfterGuard_exit]
      simp
    | some fs =>
      by_cases hl : fs.length > 0
      · have hne : fs ≠ [] := by
          intro h
          subst h
          simp at hl
        simp only [runMain, hl, if_true]
        constructor
        · intro _
          exact Or.inl ⟨fs, rfl, hne⟩
        · intro _
          trivial
      · have hfs : fs = [] := by
          cases fs with
          | nil => rfl
          | cons a l => simp at hl
        subst hfs
        simp only [runMain, List.length_nil, gt_iff_lt, Nat.lt_irrefl,
          if_false]
        rw [runAfterGuard_exit]
        simp
  · intro b1 b2
    cases d0 <;> rfl

/-- C10 (implicit): the bulk-copy filter excludes every basename ending in
`.yaml`, lockfile or not, so for every fault-free run no entry of the
destination tree carries a name ending in `.yaml`. -/
theorem claim_C10_yaml_exclusion (t : FS) (d0 : Option FS) (cfg : Config)
    (hd0 : d0 = none ∨ d0 = some []) :
    ∀ e ∈ destFS (runMain t d0 cfg noFaults), ∀ name ∈ pathOfE e,
      strEndsWith name ".yaml" = false :=
  fun _ he _ hname => copyFilter_yaml (destFS_nf_copyFilter hd0 he hname)

/-- Witness for C10: the sample template's `docker-compose`-style yaml name is
excluded, while a surviving destination file's name does not end in `.yaml`. -/
theorem witness_C10 :
    strEndsWith "pnpm-lock.yaml" ".yaml" = true ∧
    Entry.file ["git-ignore.txt"] "node_modules\n" ∈ wT ∧
    Entry.file ["drizzle.config.ts"] drizzleConfigSrc ∈
      destFS (runMain wT none cfgBasic noFaults) ∧
    strEndsWith "drizzle.config.ts" ".yaml" = false := by
  have hmem : Entry.file ["drizzle.config.ts"] drizzleConfigSrc ∈
      destFS (runMain wT none cfgBasic noFaults) := by decide
  exact ⟨by decide, by decide, hmem,
    claim_C10_yaml_exclusion wT none cfgBasic (Or.inl rfl) _ hmem
      "drizzle.config.ts" (by decide)⟩

end CES
